import Mathlib

/-!
Verification of the realtime collaboration relay (`src/server/realtime-server.mjs`).

The relay is shallowly embedded as a transition system:

* JavaScript `Map`s become association lists (`aget` / `aset` / `aerase`),
  `Set`s become duplicate-free `List Nat` of connection ids.
* The Yjs CRDT is abstracted as the list of successfully applied update
  payloads (`Room.doc`); `Y.applyUpdate` appends, `Y.encodeStateAsUpdate`
  is `encodeDoc`.  The claims under study only need "changed / unchanged /
  started from snapshot", never the CRDT algebra itself.
* External I/O (token verification, Prisma queries, Redis availability,
  `Y.applyUpdate` success, `Date.now()`) is supplied per event through an
  oracle environment `Env`, so every code path of the source - including
  failure paths - is reachable in the model.
* Each inbound websocket frame, transport pong, transport close, sweeper
  pass over one room, and persist-timer firing is one `Event`; `step`
  executes it exactly as the source handlers do and `run` folds a trace
  from the empty initial state.
-/

/-- Values arriving in the `documentId` field of a join frame: either a
JavaScript string or some truthy non-string value (number, object, ...),
which the source rejects with `typeof documentId !== "string"`. -/
inductive JsId where
  | str (s : String)
  | other
deriving DecidableEq, Repr

/-- Result of an awaited external fetch: the promise rejected (`err`, caught
by the surrounding try/catch in the source) or resolved with a value. -/
inductive Fetch (α : Type) where
  | err
  | ok (a : α)
deriving DecidableEq, Repr

/-- Payload of a successfully verified JWT (`verifyToken`). -/
structure Auth where
  userId : String
  email : String
deriving DecidableEq, Repr

/-- Row of the durable `DocumentVersion` table.  `createdAt` ordering is
abstracted away: queries that ask for the latest row receive it directly
from the oracle environment. -/
structure Version where
  authorId : String
  summary : String
  snapshot : String
deriving DecidableEq, Repr

/-- Row of the `DocumentShareLink` table. -/
structure ShareLink where
  documentId : String
  token : String
  permission : String
  expiresAt : Option Nat
deriving DecidableEq, Repr

/-- Snapshot of the durable store consulted by `getDocumentAccess`:
documents (id to ownerId), explicit shares ((documentId, userId) to
permission) and share links. -/
structure Db where
  documents : List (String × String)
  shares : List ((String × String) × String)
  links : List ShareLink
deriving DecidableEq, Repr

/-- Result of `getDocumentAccess` in the source: a granted permission
string or one of the three structured errors. -/
inductive Access where
  | granted (permission : String)
  | invalidId
  | notFound
  | noAccess
deriving DecidableEq, Repr

/-- Presence entry stored per connection inside a room
(`room.presence.set(connection, {...})` in the source). -/
structure Presence where
  userId : String
  name : String
  avatarColor : String
  cursorPosition : Int
  selStart : Int
  selEnd : Int
  isTyping : Bool
  lastHeartbeat : Nat
deriving DecidableEq, Repr

/-- Entry of the process-wide `connectionState` map. -/
structure ConnState where
  documentId : String
  userId : String
  permission : String
deriving DecidableEq, Repr

/-- Room state: abstracted CRDT, connection set, presence map and the
pending debounced-persist timer flag. -/
structure Room where
  doc : List String
  connections : List Nat
  presence : List (Nat × Presence)
  persistTimeout : Bool
deriving DecidableEq, Repr

/-- Process-wide mutable state of the relay: the room registry and the
connection-state map. -/
structure ServerState where
  rooms : List (String × Room)
  connectionState : List (Nat × ConnState)
deriving DecidableEq, Repr

/-- Server-to-client frames relevant to the claims. -/
inductive Frame where
  | errorMsg (message : String)
  | docSync (documentId : String) (update : String)
  | yjsUpdate (documentId : String) (update : String)
  | presenceUpdate (documentId : String) (users : List Presence)
deriving DecidableEq, Repr

/-- Parsed client-to-server frames.  Fields that may be absent in the JSON
(`??`-coalesced or truthiness-checked in the source) are `Option`s; `other`
stands for any frame with an unrecognized truthy `type`. -/
inductive Msg where
  | join (token : Option String) (documentId : Option JsId)
      (shareToken : Option String) (userName : Option String)
      (avatarColor : Option String) (cursorPosition : Option Int)
      (selectionRange : Option (Int × Int))
  | yjsUpdate (update : Option String)
  | cursorUpdate (cursorPosition : Option Int)
      (selectionRange : Option (Int × Int)) (isTyping : Option Bool)
  | leave
  | heartbeat
  | other
deriving DecidableEq, Repr

/-- Oracle outcomes of the snapshot loads performed by `getRoom`:
cache readiness, the cache `get`, and the latest durable version row. -/
structure LoadEnv where
  cacheReady : Bool
  cacheGet : Fetch (Option String)
  dbLatest : Fetch (Option Version)
deriving DecidableEq, Repr

/-- Per-event oracle environment: current time, durable-store content,
token-verification outcome, whether the document fetch inside
`getDocumentAccess` throws, snapshot-load outcomes, whether
`Y.applyUpdate` succeeds, and which sockets are currently OPEN. -/
structure Env where
  now : Nat
  db : Db
  authResult : Option Auth
  docFetchErr : Bool
  load : LoadEnv
  applyOk : Bool
  openConns : List Nat
deriving DecidableEq, Repr

/-- Result of processing one event: the new server state, the frames sent
(recipient connection paired with the frame, in send order), and the
connections closed or terminated by the handler. -/
structure StepResult where
  state : ServerState
  outputs : List (Nat × Frame)
  closes : List Nat
deriving DecidableEq, Repr

/-! ### Association-list and set primitives (JavaScript `Map` / `Set`) -/

/-- Lookup in an association list (`Map.get`). -/
def aget {α β : Type} [DecidableEq α] (k : α) : List (α × β) → Option β
  | [] => none
  | (k', v) :: rest => if k' = k then some v else aget k rest

/-- Insert or replace in an association list (`Map.set`): replaces the
first binding of the key in place, else appends. -/
def aset {α β : Type} [DecidableEq α] (k : α) (v : β) : List (α × β) → List (α × β)
  | [] => [(k, v)]
  | (k', v') :: rest => if k' = k then (k, v) :: rest else (k', v') :: aset k v rest

/-- Delete from an association list (`Map.delete`). -/
def aerase {α β : Type} [DecidableEq α] (k : α) : List (α × β) → List (α × β)
  | [] => []
  | (k', v') :: rest => if k' = k then aerase k rest else (k', v') :: aerase k rest

/-- Membership test as a `Bool` (`Set.has` / `Array.includes`). -/
def memB (a : Nat) (l : List Nat) : Bool := decide (a ∈ l)

/-- Add to a set (`Set.add`): no-op when already present. -/
def sadd (a : Nat) (l : List Nat) : List Nat := if a ∈ l then l else l ++ [a]

/-- Remove from a set (`Set.delete`). -/
def sdel (a : Nat) (l : List Nat) : List Nat := l.filter (fun c => decide (c ≠ a))

/-- JavaScript truthiness of an optional string: `null`/`undefined` and
the empty string are falsy. -/
def falsyOptStr : Option String → Bool
  | none => true
  | some s => decide (s = "")

/-- JavaScript truthiness of the `documentId` field. -/
def falsyId : Option JsId → Bool
  | none => true
  | some (JsId.str s) => decide (s = "")
  | some JsId.other => false

/-- String carried by a `documentId` value (total; only used on values the
access resolver has already accepted, which are nonempty strings). -/
def idString : Option JsId → String
  | some (JsId.str s) => s
  | _ => ""

/-- Abstraction of `Y.encodeStateAsUpdate` followed by base64 encoding:
fold the applied updates into one payload string. -/
def encodeDoc (doc : List String) : String := String.intercalate "," doc

/-! ### Access resolution (`getDocumentAccess`, source lines 89-136) -/

/-- Link validity predicate of the Prisma query: `expiresAt` is NULL or
strictly in the future. -/
def linkValid (now : Nat) (l : ShareLink) : Bool :=
  match l.expiresAt with
  | none => true
  | some t => decide (now < t)

/-- The `documentShareLink.findFirst` query: first link matching the
document, the token, and the validity window. -/
def findValidShareLink (links : List ShareLink) (docId tok : String) (now : Nat) :
    Option ShareLink :=
  links.find? (fun l =>
    decide (l.documentId = docId) && decide (l.token = tok) && linkValid now l)

/-- Access resolver, faithful to source order: id-shape check, document
fetch (errors surface as `notFound`), owner check, explicit share check,
share-link check, else `noAccess`. -/
def getDocumentAccess (db : Db) (now : Nat) (documentId : Option JsId)
    (userId : String) (shareToken : Option String) (docFetchErr : Bool) : Access :=
  match documentId with
  | some (JsId.str s) =>
    if s = "" then Access.invalidId
    else if docFetchErr then Access.notFound
    else
      match aget s db.documents with
      | none => Access.notFound
      | some ownerId =>
        if ownerId = userId then Access.granted "owner"
        else
          match aget (s, userId) db.shares with
          | some p => Access.granted p
          | none =>
            match shareToken with
            | none => Access.noAccess
            | some tok =>
              if tok = "" then Access.noAccess
              else
                match findValidShareLink db.links s tok now with
                | some l => Access.granted l.permission
                | none => Access.noAccess
  | _ => Access.invalidId

/-! ### Snapshot load (`getRoom`, source lines 138-187) -/

/-- Initial CRDT contents of a fresh room: cache first when ready and
nonempty, else the latest durable version's snapshot when present and
nonempty, else empty.  Errors on either tier are caught and fall through,
exactly as the source's try/catch blocks do. -/
def loadDoc (l : LoadEnv) : List String :=
  let cacheVal : Option String :=
    if l.cacheReady then
      match l.cacheGet with
      | Fetch.ok (some s) => if s = "" then none else some s
      | _ => none
    else none
  match cacheVal with
  | some s => [s]
  | none =>
    match l.dbLatest with
    | Fetch.ok (some v) => if v.snapshot = "" then [] else [v.snapshot]
    | _ => []

/-! ### Presence dedup and broadcast (source lines 286-316) -/

/-- One iteration of the dedup loop in `broadcastPresence`: keep the entry
with the strictly greater `lastHeartbeat`, first-seen wins ties. -/
def dedupeStep (acc : List (String × Presence)) (p : Presence) :
    List (String × Presence) :=
  match aget p.userId acc with
  | none => aset p.userId p acc
  | some q => if q.lastHeartbeat < p.lastHeartbeat then aset p.userId p acc else acc

/-- Deduplicated user list of a `presence_update` frame. -/
def presenceUsers (ps : List Presence) : List Presence :=
  (ps.foldl dedupeStep []).map Prod.snd

/-- Send a frame to every member of the room whose socket is OPEN,
optionally excluding one connection (`broadcast` in the source). -/
def broadcast (env : Env) (room : Room) (payload : Frame) (except : Option Nat) :
    List (Nat × Frame) :=
  (room.connections.filter
      (fun c => memB c env.openConns && decide (except ≠ some c))).map
    (fun c => (c, payload))

/-- Presence broadcast: dedup the room's presence values and fan out. -/
def broadcastPresence (env : Env) (docId : String) (room : Room) :
    List (Nat × Frame) :=
  broadcast env room
    (Frame.presenceUpdate docId (presenceUsers (room.presence.map Prod.snd))) none

/-! ### Persistence (`persistRoom`, source lines 205-266) -/

/-- Oracle outcomes of one `persistRoom` execution: cache readiness, cache
`set` success, whether a failed `set` signalled "Connection is closed",
whether any durable query throws, the latest durable version row and the
document's owner. -/
structure PersistEnv where
  cacheReady : Bool
  cacheSetOk : Bool
  connClosedErr : Bool
  dbFail : Bool
  latest : Option Version
  docOwner : Option String
deriving DecidableEq, Repr

/-- Observable effects of one `persistRoom` execution. -/
structure PersistResult where
  cacheWritten : Bool
  createdRow : Option Version
  lastDbPersistAfter : Nat
  cacheReadyAfter : Bool
deriving DecidableEq, Repr

/-- Durable branch of `persistRoom`: rate-limited (5 s floor), skipped on
store failure, row created only when no version exists or the bytes
changed, authored by the document owner with summary "Auto-save". -/
def persistDb (env : PersistEnv) (snapshot : String) (lastP now : Nat)
    (cacheAfter : Bool) : PersistResult :=
  if now - lastP < 5000 then ⟨false, none, lastP, cacheAfter⟩
  else if env.dbFail then ⟨false, none, lastP, cacheAfter⟩
  else
    match env.latest with
    | none =>
      match env.docOwner with
      | some o => ⟨false, some ⟨o, "Auto-save", snapshot⟩, now, cacheAfter⟩
      | none => ⟨false, none, lastP, cacheAfter⟩
    | some v =>
      if v.snapshot = snapshot then ⟨false, none, lastP, cacheAfter⟩
      else
        match env.docOwner with
        | some o => ⟨false, some ⟨o, "Auto-save", snapshot⟩, now, cacheAfter⟩
        | none => ⟨false, none, lastP, cacheAfter⟩

/-- The persist path: cache write when ready (stopping on success), else
fall through to the durable branch; a "Connection is closed" failure flips
the cache-ready bit. -/
def persistRoom (env : PersistEnv) (snapshot : String) (lastP now : Nat) :
    PersistResult :=
  if env.cacheReady then
    if env.cacheSetOk then ⟨true, none, lastP, true⟩
    else persistDb env snapshot lastP now (if env.connClosedErr then false else true)
  else persistDb env snapshot lastP now false

/-! ### Frame handlers (source lines 369-576) -/

/-- The `join_document` handler: guard on token/documentId truthiness,
verify the token, resolve access, create or look up the room (loading the
snapshot on creation), register the connection in all three tracking
structures, send `doc_sync`, broadcast presence.  Denials answer with one
`error` frame and close the connection. -/
def handleJoin (env : Env) (st : ServerState) (conn : Nat) (tok : Option String)
    (docIdv : Option JsId) (shareTok userName avatarC : Option String)
    (cp : Option Int) (sr : Option (Int × Int)) : StepResult :=
  if falsyOptStr tok || falsyId docIdv then
    ⟨st, [(conn, Frame.errorMsg "Unauthorized")], [conn]⟩
  else
    match env.authResult with
    | none => ⟨st, [(conn, Frame.errorMsg "Unauthorized")], [conn]⟩
    | some auth =>
      match getDocumentAccess env.db env.now docIdv auth.userId shareTok env.docFetchErr with
      | Access.granted perm =>
        let docId := idString docIdv
        let room0 : Room :=
          match aget docId st.rooms with
          | some r => r
          | none => ⟨loadDoc env.load, [], [], false⟩
        let p : Presence :=
          ⟨auth.userId, userName.getD auth.email, avatarC.getD "#0ea5e9",
            cp.getD 0, (sr.getD (0, 0)).1, (sr.getD (0, 0)).2, false, env.now⟩
        let room' : Room :=
          { room0 with
            connections := sadd conn room0.connections,
            presence := aset conn p room0.presence }
        let st' : ServerState :=
          ⟨aset docId room' st.rooms,
            aset conn ⟨docId, auth.userId, perm⟩ st.connectionState⟩
        ⟨st', (conn, Frame.docSync docId (encodeDoc room'.doc))
              :: broadcastPresence env docId room', []⟩
      | Access.noAccess => ⟨st, [(conn, Frame.errorMsg "Access denied")], [conn]⟩
      | _ => ⟨st, [(conn, Frame.errorMsg "Document not found")], [conn]⟩

/-- The `yjs_update` handler for a joined connection whose room exists:
frames with a falsy `update` are dropped silently; viewers get a read-only
error and nothing else happens; otherwise the update is applied (when the
CRDT accepts it), a persist is scheduled and the original payload is
broadcast to every other open member. -/
def handleYjs (env : Env) (st : ServerState) (conn : Nat) (cs : ConnState)
    (room : Room) (uopt : Option String) : StepResult :=
  if falsyOptStr uopt then ⟨st, [], []⟩
  else if cs.permission = "viewer" then
    ⟨st, [(conn, Frame.errorMsg "Read-only access")], []⟩
  else if env.applyOk then
    let u := uopt.getD ""
    let room' : Room := { room with doc := room.doc ++ [u], persistTimeout := true }
    ⟨{ st with rooms := aset cs.documentId room' st.rooms },
      broadcast env room' (Frame.yjsUpdate cs.documentId u) (some conn), []⟩
  else ⟨st, [], []⟩

/-- The `cursor_update` handler: partial merge into the presence entry
(missing fields retained), heartbeat refresh, presence broadcast. -/
def handleCursor (env : Env) (st : ServerState) (conn : Nat) (cs : ConnState)
    (room : Room) (cp : Option Int) (sr : Option (Int × Int))
    (ty : Option Bool) : StepResult :=
  match aget conn room.presence with
  | none => ⟨st, [], []⟩
  | some p =>
    let p' : Presence :=
      { p with
        cursorPosition := cp.getD p.cursorPosition,
        selStart := (sr.map Prod.fst).getD p.selStart,
        selEnd := (sr.map Prod.snd).getD p.selEnd,
        isTyping := ty.getD p.isTyping,
        lastHeartbeat := env.now }
    let room' : Room := { room with presence := aset conn p' room.presence }
    ⟨{ st with rooms := aset cs.documentId room' st.rooms },
      broadcastPresence env cs.documentId room', []⟩

/-- The `leave_document` handler: remove the connection from all three
structures and broadcast presence to the remaining members. -/
def handleLeave (env : Env) (st : ServerState) (conn : Nat) (cs : ConnState)
    (room : Room) : StepResult :=
  let room' : Room :=
    { room with
      connections := sdel conn room.connections,
      presence := aerase conn room.presence }
  ⟨⟨aset cs.documentId room' st.rooms, aerase conn st.connectionState⟩,
    broadcastPresence env cs.documentId room', []⟩

/-- The `heartbeat` handler: refresh `lastHeartbeat` only, no broadcast. -/
def handleHeartbeat (env : Env) (st : ServerState) (conn : Nat) (cs : ConnState)
    (room : Room) : StepResult :=
  match aget conn room.presence with
  | none => ⟨st, [], []⟩
  | some p =>
    let room' : Room :=
      { room with presence := aset conn { p with lastHeartbeat := env.now } room.presence }
    ⟨{ st with rooms := aset cs.documentId room' st.rooms }, [], []⟩

/-- Dispatch of one inbound frame, mirroring the source's `message`
handler: `join_document` is handled unconditionally; every other type
first requires a `connectionState` entry (else a `Not joined` error) and a
live room (else silently dropped). -/
def handleMessage (env : Env) (st : ServerState) (conn : Nat) (msg : Msg) :
    StepResult :=
  match msg with
  | Msg.join tok docIdv shareTok userName avatarC cp sr =>
    handleJoin env st conn tok docIdv shareTok userName avatarC cp sr
  | m =>
    match aget conn st.connectionState with
    | none => ⟨st, [(conn, Frame.errorMsg "Not joined")], []⟩
    | some cs =>
      match aget cs.documentId st.rooms with
      | none => ⟨st, [], []⟩
      | some room =>
        match m with
        | Msg.yjsUpdate uopt => handleYjs env st conn cs room uopt
        | Msg.cursorUpdate cp sr ty => handleCursor env st conn cs room cp sr ty
        | Msg.leave => handleLeave env st conn cs room
        | Msg.heartbeat => handleHeartbeat env st conn cs room
        | _ => ⟨st, [], []⟩

/-- The transport `close` handler: idempotent cleanup of the three
structures plus a presence broadcast; tolerates an already-absent room. -/
def handleClose (env : Env) (st : ServerState) (conn : Nat) : StepResult :=
  match aget conn st.connectionState with
  | none => ⟨st, [], []⟩
  | some cs =>
    match aget cs.documentId st.rooms with
    | none => ⟨⟨st.rooms, aerase conn st.connectionState⟩, [], []⟩
    | some room =>
      let room' : Room :=
        { room with
          connections := sdel conn room.connections,
          presence := aerase conn room.presence }
      ⟨⟨aset cs.documentId room' st.rooms, aerase conn st.connectionState⟩,
        broadcastPresence env cs.documentId room', []⟩

/-- The transport `pong` handler: refresh `lastHeartbeat` of the joined
connection's presence entry. -/
def handlePong (env : Env) (st : ServerState) (conn : Nat) : ServerState :=
  match aget conn st.connectionState with
  | none => st
  | some cs =>
    match aget cs.documentId st.rooms with
    | none => st
    | some room =>
      match aget conn room.presence with
      | none => st
      | some p =>
        let room' : Room :=
          { room with presence := aset conn { p with lastHeartbeat := env.now } room.presence }
        { st with rooms := aset cs.documentId room' st.rooms }

/-! ### Sweeper (`cleanupRoom`, source lines 318-342) -/

/-- Staleness test of the sweeper: last heartbeat older than 10 s. -/
def staleB (now : Nat) (p : Presence) : Bool := decide (now - p.lastHeartbeat > 10000)

/-- Connections evicted from a room by one sweeper pass: those whose
presence entry is stale. -/
def evictConns (now : Nat) (room : Room) : List Nat :=
  (room.presence.filter (fun cp => staleB now cp.2)).map Prod.fst

/-- Room after one sweeper pass: stale presence entries and their
connections removed. -/
def cleanRoom (now : Nat) (room : Room) : Room :=
  { room with
    presence := room.presence.filter (fun cp => !staleB now cp.2),
    connections := room.connections.filter (fun c => !memB c (evictConns now room)) }

/-- One sweeper pass over one room (`cleanupRoom`): evict stale
connections from the three structures, terminate their sockets, broadcast
presence when anything changed, and delete the room from the registry when
its connection set ended up empty - the pending-persist flag is NOT
consulted.  The source's `setInterval` applies this to every room. -/
def cleanupRoom (env : Env) (docId : String) (st : ServerState) : StepResult :=
  match aget docId st.rooms with
  | none => ⟨st, [], []⟩
  | some room =>
    let stale := evictConns env.now room
    let room' := cleanRoom env.now room
    let cs' := st.connectionState.filter (fun e => !memB e.1 stale)
    let outs := if stale.isEmpty then [] else broadcastPresence env docId room'
    let rooms' :=
      if room'.connections.isEmpty then aerase docId st.rooms
      else aset docId room' st.rooms
    ⟨⟨rooms', cs'⟩, outs, stale⟩

/-! ### Events and runs -/

/-- One scheduler event of the relay process. -/
inductive Event where
  | msg (env : Env) (conn : Nat) (m : Msg)
  | close (env : Env) (conn : Nat)
  | pong (env : Env) (conn : Nat)
  | sweep (env : Env) (docId : String)
  | fire (docId : String)
deriving DecidableEq, Repr

/-- State transition of one event.  `fire` models the debounced-persist
timer firing: it clears the pending flag first (the write itself touches
only external stores, captured by `persistRoom`). -/
def step (st : ServerState) (e : Event) : ServerState :=
  match e with
  | Event.msg env conn m => (handleMessage env st conn m).state
  | Event.close env conn => (handleClose env st conn).state
  | Event.pong env conn => handlePong env st conn
  | Event.sweep env docId => (cleanupRoom env docId st).state
  | Event.fire docId =>
    match aget docId st.rooms with
    | some room => ⟨aset docId { room with persistTimeout := false } st.rooms, st.connectionState⟩
    | none => st

/-- Initial state of a freshly started relay: no rooms, no connections. -/
def initState : ServerState := ⟨[], []⟩

/-- Execute a trace of events from the initial state. -/
def run (es : List Event) : ServerState := es.foldl step initState

/-- Guard of a well-behaved trace: a `join_document` frame is only
processed for a connection that is not currently joined.  (The source does
not enforce this; see the counterexample to claim C8.) -/
def eventOK (st : ServerState) : Event → Bool
  | Event.msg _ conn (Msg.join _ _ _ _ _ _ _) =>
    decide (aget conn st.connectionState = none)
  | _ => true

/-- A trace is good when every event satisfies `eventOK` in the state
where it fires. -/
def goodRun : ServerState → List Event → Bool
  | _, [] => true
  | st, e :: es => eventOK st e && goodRun (step st e) es

/-- Invariant of the dedup fold in `broadcastPresence`: keys are unique,
every accumulated entry is a processed entry keyed by its own `userId`
that dominates (by `lastHeartbeat`) every processed entry of that user,
and every processed user is represented. -/
def Dacc (processed : List Presence) (acc : List (String × Presence)) : Prop :=
  (acc.map Prod.fst).Nodup ∧
  (∀ e, e ∈ acc → e.2.userId = e.1 ∧ e.2 ∈ processed ∧
    ∀ p, p ∈ processed → p.userId = e.1 → p.lastHeartbeat ≤ e.2.lastHeartbeat) ∧
  (∀ p, p ∈ processed → ∃ q, aget p.userId acc = some q)

/-! ### Concrete fixtures used by witnesses and counterexamples -/

/-- Load environment of a cold start with an unavailable cache and an
empty durable store. -/
def exLoad : LoadEnv := ⟨false, Fetch.ok none, Fetch.ok none⟩

/-- Load environment where both the cache fetch and the durable fetch
reject. -/
def exLoadErr : LoadEnv := ⟨true, Fetch.err, Fetch.err⟩

/-- Store fixture: `d1` and `d2` owned by alice, bob holds an explicit
viewer share on `d1`, no share links. -/
def exDb : Db := ⟨[("d1", "alice"), ("d2", "alice")], [(("d1", "bob"), "viewer")], []⟩

/-- Event environment for alice at time 50. -/
def exEnvA : Env := ⟨50, exDb, some ⟨"alice", "a@x"⟩, false, exLoad, true, [0, 1]⟩

/-- Event environment for bob (viewer on `d1`) at time 50. -/
def exEnvB : Env := ⟨50, exDb, some ⟨"bob", "b@x"⟩, false, exLoad, true, [0, 1]⟩

/-- Alice environment at time 100. -/
def exEnvA2 : Env := { exEnvA with now := 100 }

/-- Alice environment whose snapshot loads both fail. -/
def exEnvErr : Env := { exEnvA with load := exLoadErr }

/-- Connection 0 joins `d1` as alice. -/
def exJoin1 : Event :=
  Event.msg exEnvA 0 (Msg.join (some "t") (some (JsId.str "d1")) none none none none none)

/-- Connection 0 joins `d2` as alice (while already joined to `d1`). -/
def exJoin2 : Event :=
  Event.msg exEnvA 0 (Msg.join (some "t") (some (JsId.str "d2")) none none none none none)

/-- Connection 0 joins `d1` as bob, obtaining viewer permission. -/
def exJoinB : Event :=
  Event.msg exEnvB 0 (Msg.join (some "t") (some (JsId.str "d1")) none none none none none)

/-- Connection 0 sends a `yjs_update` carrying payload `u` at time 100. -/
def exUpd1 : Event := Event.msg exEnvA2 0 (Msg.yjsUpdate (some "u"))

/-- Connection 0 leaves its document at time 100. -/
def exLeave1 : Event := Event.msg exEnvA2 0 Msg.leave

/-- One sweeper pass over room `d1` at time 100. -/
def exSweep1 : Event := Event.sweep exEnvA2 "d1"

/-- Two presence entries of the same user with different heartbeats. -/
def exPa : Presence := ⟨"u1", "A", "#abc", 0, 0, 0, false, 10⟩

/-- The fresher of the two duplicate entries. -/
def exPb : Presence := ⟨"u1", "A", "#abc", 0, 0, 0, false, 20⟩


/-! ### Lemmas about the map and set primitives -/

theorem aget_aset_self {α β : Type} [DecidableEq α] (k : α) (v : β) (l : List (α × β)) :
    aget k (aset k v l) = some v := by
  induction l with
  | nil => simp [aget, aset]
  | cons hd tl ih =>
    obtain ⟨a, b⟩ := hd
    by_cases h : a = k
    · simp [aset, h, aget]
    · simp [aset, h, aget, ih]

theorem aget_aset_ne {α β : Type} [DecidableEq α] {k k' : α} (v : β) (l : List (α × β))
    (h : k' ≠ k) : aget k' (aset k v l) = aget k' l := by
  induction l with
  | nil => simp [aget, aset, Ne.symm h]
  | cons hd tl ih =>
    obtain ⟨a, b⟩ := hd
    by_cases ha : a = k
    · subst ha
      have hak : a ≠ k' := fun hc => h hc.symm
      simp [aset, aget, hak]
    · simp only [aset, if_neg ha]
      by_cases ha' : a = k'
      · simp [aget, ha']
      · simp [aget, ha', ih]

theorem aget_aerase_self {α β : Type} [DecidableEq α] (k : α) (l : List (α × β)) :
    aget k (aerase k l) = none := by
  induction l with
  | nil => simp [aget, aerase]
  | cons hd tl ih =>
    obtain ⟨a, b⟩ := hd
    by_cases h : a = k
    · simp [aerase, h, ih]
    · simp [aerase, h, aget, ih]

theorem aget_aerase_ne {α β : Type} [DecidableEq α] {k k' : α} (l : List (α × β))
    (h : k' ≠ k) : aget k' (aerase k l) = aget k' l := by
  induction l with
  | nil => simp [aerase]
  | cons hd tl ih =>
    obtain ⟨a, b⟩ := hd
    by_cases ha : a = k
    · subst ha
      have hak : a ≠ k' := fun hc => h hc.symm
      simp [aerase, aget, hak, ih]
    · simp only [aerase, if_neg ha]
      by_cases ha' : a = k'
      · simp [aget, ha']
      · simp [aget, ha', ih]

theorem aget_eq_none_of_not_mem_keys {α β : Type} [DecidableEq α] {k : α}
    {l : List (α × β)} (h : k ∉ l.map Prod.fst) : aget k l = none := by
  induction l with
  | nil => rfl
  | cons hd tl ih =>
    obtain ⟨a, b⟩ := hd
    simp only [List.map_cons, List.mem_cons, not_or] at h
    have ha : a ≠ k := fun he => h.1 he.symm
    simp [aget, ha, ih h.2]

theorem mem_keys_of_aget_eq_some {α β : Type} [DecidableEq α] {k : α} {v : β}
    {l : List (α × β)} (h : aget k l = some v) : k ∈ l.map Prod.fst := by
  by_contra hc
  rw [aget_eq_none_of_not_mem_keys hc] at h
  exact Option.noConfusion h

theorem mem_of_aget_eq_some {α β : Type} [DecidableEq α] {k : α} {v : β}
    {l : List (α × β)} (h : aget k l = some v) : (k, v) ∈ l := by
  induction l with
  | nil => simp [aget] at h
  | cons hd tl ih =>
    obtain ⟨a, b⟩ := hd
    by_cases ha : a = k
    · subst ha
      simp [aget] at h
      subst h
      exact List.mem_cons_self _ _
    · simp [aget, ha] at h
      exact List.mem_cons_of_mem _ (ih h)

theorem aget_eq_some_of_mem_of_nodup {α β : Type} [DecidableEq α] {k : α} {v : β}
    {l : List (α × β)} (hnd : (l.map Prod.fst).Nodup) (h : (k, v) ∈ l) :
    aget k l = some v := by
  induction l with
  | nil => simp at h
  | cons hd tl ih =>
    obtain ⟨a, b⟩ := hd
    simp only [List.map_cons, List.nodup_cons] at hnd
    rcases List.mem_cons.mp h with h1 | h2
    · obtain ⟨h1a, h1b⟩ := Prod.mk.injEq .. ▸ h1.symm
      simp [aget, h1a.symm, h1b]
    · have hk : a ≠ k := by
        intro he
        subst he
        exact hnd.1 (List.mem_map.mpr ⟨(a, v), h2, rfl⟩)
      simp [aget, hk]
      exact ih hnd.2 h2

theorem aerase_sublist {α β : Type} [DecidableEq α] (k : α) (l : List (α × β)) :
    (aerase k l).Sublist l := by
  induction l with
  | nil => simp [aerase]
  | cons hd tl ih =>
    obtain ⟨a, b⟩ := hd
    by_cases h : a = k
    · simp only [aerase, if_pos h]
      exact ih.trans (List.sublist_cons_self (a, b) tl)
    · simp only [aerase, if_neg h]
      exact ih.cons₂ (a, b)

theorem keys_filter_sublist {α β : Type} (f : α × β → Bool) (l : List (α × β)) :
    ((l.filter f).map Prod.fst).Sublist (l.map Prod.fst) :=
  (List.filter_sublist l).map Prod.fst

theorem nodup_keys_filter {α β : Type} {l : List (α × β)} (f : α × β → Bool)
    (hnd : (l.map Prod.fst).Nodup) : (((l.filter f).map Prod.fst)).Nodup :=
  hnd.sublist (keys_filter_sublist f l)

theorem aget_filter_pos {α β : Type} [DecidableEq α] {k : α} {v : β}
    {l : List (α × β)} (f : α × β → Bool) (h : aget k l = some v)
    (hf : f (k, v) = true) : aget k (l.filter f) = some v := by
  induction l with
  | nil => simp [aget] at h
  | cons hd tl ih =>
    obtain ⟨a, b⟩ := hd
    by_cases ha : a = k
    · subst ha
      simp [aget] at h
      subst h
      simp [List.filter_cons, hf, aget]
    · simp [aget, ha] at h
      cases hfa : f (a, b)
      · simp [List.filter_cons, hfa, ih h]
      · simp [List.filter_cons, hfa, aget, ha, ih h]

theorem aget_filter_none {α β : Type} [DecidableEq α] {k : α}
    {l : List (α × β)} (f : α × β → Bool) (h : aget k l = none) :
    aget k (l.filter f) = none := by
  induction l with
  | nil => simp [aget]
  | cons hd tl ih =>
    obtain ⟨a, b⟩ := hd
    by_cases ha : a = k
    · simp [aget, ha] at h
    · simp [aget, ha] at h
      cases hfa : f (a, b)
      · simp [List.filter_cons, hfa, ih h]
      · simp [List.filter_cons, hfa, aget, ha, ih h]

theorem aget_filter_neg {α β : Type} [DecidableEq α] {k : α} {v : β}
    {l : List (α × β)} (f : α × β → Bool) (hnd : (l.map Prod.fst).Nodup)
    (h : aget k l = some v) (hf : f (k, v) = false) :
    aget k (l.filter f) = none := by
  induction l with
  | nil => simp [aget] at h
  | cons hd tl ih =>
    obtain ⟨a, b⟩ := hd
    simp only [List.map_cons, List.nodup_cons] at hnd
    by_cases ha : a = k
    · subst ha
      simp [aget] at h
      subst h
      simp only [List.filter_cons, hf]
      apply aget_eq_none_of_not_mem_keys
      intro hc
      exact hnd.1 ((keys_filter_sublist f tl).subset hc)
    · simp [aget, ha] at h
      cases hfa : f (a, b)
      · simp [List.filter_cons, hfa, ih hnd.2 h]
      · simp [List.filter_cons, hfa, aget, ha, ih hnd.2 h]

theorem mem_keys_aset {α β : Type} [DecidableEq α] (k k' : α) (v : β)
    (l : List (α × β)) :
    k' ∈ (aset k v l).map Prod.fst ↔ k' = k ∨ k' ∈ l.map Prod.fst := by
  induction l with
  | nil => simp [aset]
  | cons hd tl ih =>
    obtain ⟨a, b⟩ := hd
    by_cases ha : a = k
    · subst ha
      simp [aset]
    · simp [aset, ha, ih]
      tauto

theorem nodup_keys_aset {α β : Type} [DecidableEq α] (k : α) (v : β)
    {l : List (α × β)} (hnd : (l.map Prod.fst).Nodup) :
    ((aset k v l).map Prod.fst).Nodup := by
  induction l with
  | nil => simp [aset]
  | cons hd tl ih =>
    obtain ⟨a, b⟩ := hd
    simp only [List.map_cons, List.nodup_cons] at hnd
    by_cases ha : a = k
    · subst ha
      have he : aset a v ((a, b) :: tl) = (a, v) :: tl := by simp [aset]
      rw [he, List.map_cons, List.nodup_cons]
      exact ⟨hnd.1, hnd.2⟩
    · simp only [aset, if_neg ha, List.map_cons, List.nodup_cons]
      refine ⟨?_, ih hnd.2⟩
      intro hc
      rcases (mem_keys_aset k a v tl).mp hc with h | h
      · exact ha h
      · exact hnd.1 h

theorem nodup_keys_aerase {α β : Type} [DecidableEq α] (k : α)
    {l : List (α × β)} (hnd : (l.map Prod.fst).Nodup) :
    ((aerase k l).map Prod.fst).Nodup :=
  hnd.sublist ((aerase_sublist k l).map Prod.fst)

theorem memB_iff (a : Nat) (l : List Nat) : memB a l = true ↔ a ∈ l := by
  simp [memB]

theorem mem_sadd (a c : Nat) (l : List Nat) : c ∈ sadd a l ↔ c = a ∨ c ∈ l := by
  unfold sadd
  by_cases h : a ∈ l
  · simp only [if_pos h]
    constructor
    · exact Or.inr
    · rintro (rfl | hc)
      · exact h
      · exact hc
  · simp [if_neg h, List.mem_append]
    tauto

theorem mem_sdel (a c : Nat) (l : List Nat) : c ∈ sdel a l ↔ c ∈ l ∧ c ≠ a := by
  simp [sdel, List.mem_filter]

theorem isSome_aget_aset {α β : Type} [DecidableEq α] (k k' : α) (v : β)
    (l : List (α × β)) :
    (aget k' (aset k v l)).isSome = true ↔ k' = k ∨ (aget k' l).isSome = true := by
  by_cases h : k' = k
  · subst h; simp [aget_aset_self]
  · simp [aget_aset_ne v l h, h]

/-! ### The three-structure tracking invariant (claim C8) -/

/-- Well-formedness of the JavaScript-map encodings: every map has
duplicate-free keys (true of real `Map`s by construction). -/
def WFState (st : ServerState) : Prop :=
  (st.rooms.map Prod.fst).Nodup ∧
  (st.connectionState.map Prod.fst).Nodup ∧
  ∀ docId room, aget docId st.rooms = some room → (room.presence.map Prod.fst).Nodup

/-- The tracking invariant of the spec: a connection is a member of a
Room's `connections` set iff it is a key of that Room's `presence` map iff
`connectionState` maps it to that Room's document id; moreover every
`connectionState` entry points at a live room containing the connection. -/
def InvState (st : ServerState) : Prop :=
  (∀ conn cs, aget conn st.connectionState = some cs →
      ∃ room, aget cs.documentId st.rooms = some room ∧ conn ∈ room.connections) ∧
  ∀ docId room conn, aget docId st.rooms = some room →
      ((conn ∈ room.connections ↔ (aget conn room.presence).isSome = true) ∧
       (conn ∈ room.connections ↔
         ∃ cs, aget conn st.connectionState = some cs ∧ cs.documentId = docId))

/-- Conjunction of well-formedness and the tracking invariant. -/
def InvWF (st : ServerState) : Prop := WFState st ∧ InvState st

theorem not_mem_connections_of_unjoined {st : ServerState} {conn : Nat}
    {docId : String} {room : Room} (h : InvState st)
    (hun : aget conn st.connectionState = none)
    (hr : aget docId st.rooms = some room) : conn ∉ room.connections := by
  intro hc
  obtain ⟨cs, hcs, _⟩ := ((h.2 docId room conn hr).2).mp hc
  rw [hun] at hcs
  exact Option.noConfusion hcs

theorem invwf_set_room_same_membership {st : ServerState} {d : String}
    {room room' : Room} (h : InvWF st) (hr : aget d st.rooms = some room)
    (hc : room'.connections = room.connections)
    (hp : room'.presence = room.presence) :
    InvWF ⟨aset d room' st.rooms, st.connectionState⟩ := by
  obtain ⟨⟨wf1, wf2, wf3⟩, inv1, inv2⟩ := h
  refine ⟨⟨nodup_keys_aset d room' wf1, wf2, ?_⟩, ?_, ?_⟩
  · intro dId r hgr
    by_cases hd : dId = d
    · subst hd
      rw [aget_aset_self] at hgr
      cases hgr
      rw [hp]
      exact wf3 dId room hr
    · rw [aget_aset_ne room' st.rooms hd] at hgr
      exact wf3 dId r hgr
  · intro conn cs hcs
    obtain ⟨room1, hr1, hm1⟩ := inv1 conn cs hcs
    by_cases hd : cs.documentId = d
    · refine ⟨room', ?_, ?_⟩
      · rw [hd]; exact aget_aset_self d room' st.rooms
      · rw [hc]
        rw [hd, hr] at hr1
        cases hr1
        exact hm1
    · exact ⟨room1, by rw [aget_aset_ne room' st.rooms hd]; exact hr1, hm1⟩
  · intro dId r conn hgr
    by_cases hd : dId = d
    · subst hd
      rw [aget_aset_self] at hgr
      cases hgr
      rw [hc, hp]
      exact inv2 dId room conn hr
    · rw [aget_aset_ne room' st.rooms hd] at hgr
      exact inv2 dId r conn hgr

theorem invwf_presence_refresh {st : ServerState} {d : String} {room : Room}
    {conn : Nat} {p : Presence} (p' : Presence) (h : InvWF st)
    (hr : aget d st.rooms = some room)
    (hp : aget conn room.presence = some p) :
    InvWF ⟨aset d { room with presence := aset conn p' room.presence } st.rooms,
           st.connectionState⟩ := by
  obtain ⟨⟨wf1, wf2, wf3⟩, inv1, inv2⟩ := h
  set room' : Room := { room with presence := aset conn p' room.presence } with hroom'
  refine ⟨⟨nodup_keys_aset d room' wf1, wf2, ?_⟩, ?_, ?_⟩
  · intro dId r hgr
    by_cases hd : dId = d
    · subst hd
      rw [aget_aset_self] at hgr
      cases hgr
      exact nodup_keys_aset conn p' (wf3 dId room hr)
    · rw [aget_aset_ne room' st.rooms hd] at hgr
      exact wf3 dId r hgr
  · intro c cs hcs
    obtain ⟨room1, hr1, hm1⟩ := inv1 c cs hcs
    by_cases hd : cs.documentId = d
    · refine ⟨room', ?_, ?_⟩
      · rw [hd]; exact aget_aset_self d room' st.rooms
      · rw [hd, hr] at hr1
        cases hr1
        exact hm1
    · exact ⟨room1, by rw [aget_aset_ne room' st.rooms hd]; exact hr1, hm1⟩
  · intro dId r c hgr
    by_cases hd : dId = d
    · subst hd
      rw [aget_aset_self] at hgr
      cases hgr
      constructor
      · rw [show room'.presence = aset conn p' room.presence from rfl]
        rw [show room'.connections = room.connections from rfl]
        rw [isSome_aget_aset]
        constructor
        · intro hm
          exact Or.inr (((inv2 dId room c hr).1).mp hm)
        · rintro (rfl | hs)
          · exact ((inv2 dId room c hr).1).mpr (by rw [hp]; rfl)
          · exact ((inv2 dId room c hr).1).mpr hs
      · exact (inv2 dId room c hr).2
    · rw [aget_aset_ne room' st.rooms hd] at hgr
      exact inv2 dId r c hgr

theorem invwf_remove_conn {st : ServerState} {conn : Nat} {cs : ConnState}
    {room : Room} (h : InvWF st)
    (hcs : aget conn st.connectionState = some cs)
    (hr : aget cs.documentId st.rooms = some room) :
    InvWF ⟨aset cs.documentId
             { room with
               connections := sdel conn room.connections,
               presence := aerase conn room.presence } st.rooms,
           aerase conn st.connectionState⟩ := by
  obtain ⟨⟨wf1, wf2, wf3⟩, inv1, inv2⟩ := h
  set room' : Room :=
    { room with
      connections := sdel conn room.connections,
      presence := aerase conn room.presence } with hroom'
  refine ⟨⟨nodup_keys_aset cs.documentId room' wf1, nodup_keys_aerase conn wf2, ?_⟩,
    ?_, ?_⟩
  · intro dId r hgr
    by_cases hd : dId = cs.documentId
    · subst hd
      rw [aget_aset_self] at hgr
      cases hgr
      exact nodup_keys_aerase conn (wf3 cs.documentId room hr)
    · rw [aget_aset_ne room' st.rooms hd] at hgr
      exact wf3 dId r hgr
  · intro c c' hc'
    have hcne : c ≠ conn := by
      intro he
      rw [he, aget_aerase_self] at hc'
      exact Option.noConfusion hc'
    rw [aget_aerase_ne st.connectionState hcne] at hc'
    obtain ⟨room1, hr1, hm1⟩ := inv1 c c' hc'
    by_cases hd : c'.documentId = cs.documentId
    · refine ⟨room', ?_, ?_⟩
      · rw [hd]; exact aget_aset_self cs.documentId room' st.rooms
      · rw [hd, hr] at hr1
        cases hr1
        exact (mem_sdel conn c room.connections).mpr ⟨hm1, hcne⟩
    · exact ⟨room1, by rw [aget_aset_ne room' st.rooms hd]; exact hr1, hm1⟩
  · intro dId r c hgr
    by_cases hd : dId = cs.documentId
    · subst hd
      rw [aget_aset_self] at hgr
      cases hgr
      by_cases hcc : c = conn
      · subst hcc
        constructor
        · constructor
          · intro hm
            exact absurd ((mem_sdel c c room.connections).mp hm).2 (by simp)
          · intro hs
            rw [show room'.presence = aerase c room.presence from rfl,
              aget_aerase_self] at hs
            exact Bool.noConfusion hs
        · constructor
          · intro hm
            exact absurd ((mem_sdel c c room.connections).mp hm).2 (by simp)
          · rintro ⟨c', hc', _⟩
            rw [aget_aerase_self] at hc'
            exact Option.noConfusion hc'
      · constructor
        · rw [show room'.presence = aerase conn room.presence from rfl,
            aget_aerase_ne room.presence hcc]
          constructor
          · intro hm
            exact ((inv2 cs.documentId room c hr).1).mp
              ((mem_sdel conn c room.connections).mp hm).1
          · intro hs
            exact (mem_sdel conn c room.connections).mpr
              ⟨((inv2 cs.documentId room c hr).1).mpr hs, hcc⟩
        · rw [show room'.connections = sdel conn room.connections from rfl]
          constructor
          · intro hm
            obtain ⟨c', hc', hd'⟩ := ((inv2 cs.documentId room c hr).2).mp
              ((mem_sdel conn c room.connections).mp hm).1
            exact ⟨c', by rw [aget_aerase_ne st.connectionState hcc]; exact hc', hd'⟩
          · rintro ⟨c', hc', hd'⟩
            rw [aget_aerase_ne st.connectionState hcc] at hc'
            exact (mem_sdel conn c room.connections).mpr
              ⟨((inv2 cs.documentId room c hr).2).mpr ⟨c', hc', hd'⟩, hcc⟩
    · rw [aget_aset_ne room' st.rooms hd] at hgr
      constructor
      · exact (inv2 dId r c hgr).1
      · by_cases hcc : c = conn
        · subst hcc
          constructor
          · intro hm
            obtain ⟨c', hc', hd'⟩ := ((inv2 dId r c hgr).2).mp hm
            rw [hcs] at hc'
            cases hc'
            exact absurd hd'.symm hd
          · rintro ⟨c', hc', _⟩
            rw [aget_aerase_self] at hc'
            exact Option.noConfusion hc'
        · rw [show aget c (aerase conn st.connectionState) = aget c st.connectionState
            from aget_aerase_ne st.connectionState hcc]
          exact (inv2 dId r c hgr).2

theorem invwf_join_insert {st : ServerState} (conn : Nat) (d : String)
    (newCs : ConnState) (p : Presence) {room0 : Room} (h : InvWF st)
    (hun : aget conn st.connectionState = none)
    (hd0 : newCs.documentId = d)
    (hroom0 : aget d st.rooms = some room0 ∨
      (aget d st.rooms = none ∧ room0.connections = [] ∧ room0.presence = [])) :
    InvWF ⟨aset d { room0 with
                    connections := sadd conn room0.connections,
                    presence := aset conn p room0.presence } st.rooms,
           aset conn newCs st.connectionState⟩ := by
  obtain ⟨⟨wf1, wf2, wf3⟩, inv1, inv2⟩ := h
  set room' : Room :=
    { room0 with
      connections := sadd conn room0.connections,
      presence := aset conn p room0.presence } with hroom'
  have hpn0 : (room0.presence.map Prod.fst).Nodup := by
    rcases hroom0 with hsome | ⟨_, _, hnil⟩
    · exact wf3 d room0 hsome
    · rw [hnil]; exact List.nodup_nil
  have hnotmem : ∀ dId r, aget dId st.rooms = some r → conn ∉ r.connections := by
    intro dId r hgr
    exact not_mem_connections_of_unjoined ⟨inv1, inv2⟩ hun hgr
  refine ⟨⟨nodup_keys_aset d room' wf1, nodup_keys_aset conn newCs wf2, ?_⟩, ?_, ?_⟩
  · intro dId r hgr
    by_cases hd : dId = d
    · subst hd
      rw [aget_aset_self] at hgr
      cases hgr
      exact nodup_keys_aset conn p hpn0
    · rw [aget_aset_ne room' st.rooms hd] at hgr
      exact wf3 dId r hgr
  · intro c c' hc'
    by_cases hcc : c = conn
    · subst hcc
      rw [aget_aset_self] at hc'
      cases hc'
      refine ⟨room', ?_, ?_⟩
      · rw [hd0]; exact aget_aset_self d room' st.rooms
      · exact (mem_sadd c c room0.connections).mpr (Or.inl rfl)
    · rw [aget_aset_ne newCs st.connectionState hcc] at hc'
      obtain ⟨room1, hr1, hm1⟩ := inv1 c c' hc'
      by_cases hdd : c'.documentId = d
      · rw [hdd] at hr1
        rcases hroom0 with hsome | ⟨hnone, _, _⟩
        · rw [hsome] at hr1
          cases hr1
          refine ⟨room', ?_, ?_⟩
          · rw [hdd]; exact aget_aset_self d room' st.rooms
          · exact (mem_sadd conn c room0.connections).mpr (Or.inr hm1)
        · rw [hnone] at hr1
          exact Option.noConfusion hr1
      · exact ⟨room1, by rw [aget_aset_ne room' st.rooms hdd]; exact hr1, hm1⟩
  · intro dId r c hgr
    by_cases hd : dId = d
    · subst hd
      rw [aget_aset_self] at hgr
      cases hgr
      constructor
      · rw [show room'.connections = sadd conn room0.connections from rfl,
          show room'.presence = aset conn p room0.presence from rfl,
          mem_sadd, isSome_aget_aset]
        rcases hroom0 with hsome | ⟨_, hcn, hpr⟩
        · exact or_congr Iff.rfl (inv2 dId room0 c hsome).1
        · rw [hcn, hpr]
          simp [aget]
      · rw [show room'.connections = sadd conn room0.connections from rfl, mem_sadd]
        constructor
        · rintro (rfl | hm)
          · exact ⟨newCs, aget_aset_self c newCs st.connectionState, hd0⟩
          · rcases hroom0 with hsome | ⟨_, hcn, _⟩
            · obtain ⟨c', hc', hdd⟩ := ((inv2 dId room0 c hsome).2).mp hm
              have hcc : c ≠ conn := by
                intro he
                rw [he, hun] at hc'
                exact Option.noConfusion hc'
              exact ⟨c', by rw [aget_aset_ne newCs st.connectionState hcc]; exact hc', hdd⟩
            · rw [hcn] at hm
              simp at hm
        · rintro ⟨c', hc', hdd⟩
          by_cases hcc : c = conn
          · exact Or.inl hcc
          · rw [aget_aset_ne newCs st.connectionState hcc] at hc'
            rcases hroom0 with hsome | ⟨hnone, _, _⟩
            · exact Or.inr (((inv2 dId room0 c hsome).2).mpr ⟨c', hc', hdd⟩)
            · obtain ⟨room1, hr1, _⟩ := inv1 c c' hc'
              rw [hdd, hnone] at hr1
              exact Option.noConfusion hr1
    · rw [aget_aset_ne room' st.rooms hd] at hgr
      refine ⟨(inv2 dId r c hgr).1, ?_⟩
      by_cases hcc : c = conn
      · subst hcc
        constructor
        · intro hm
          exact absurd hm (hnotmem dId r hgr)
        · rintro ⟨c', hc', hdd⟩
          rw [aget_aset_self] at hc'
          cases hc'
          rw [hd0] at hdd
          exact absurd hdd.symm hd
      · rw [show aget c (aset conn newCs st.connectionState) = aget c st.connectionState
          from aget_aset_ne newCs st.connectionState hcc]
        exact (inv2 dId r c hgr).2

theorem mem_evictConns_iff {now : Nat} {room : Room}
    (hnd : (room.presence.map Prod.fst).Nodup) (c : Nat) :
    c ∈ evictConns now room ↔
      ∃ p, aget c room.presence = some p ∧ staleB now p = true := by
  unfold evictConns
  constructor
  · intro hm
    obtain ⟨e, he, hfst⟩ := List.mem_map.mp hm
    obtain ⟨hmem, hstale⟩ := List.mem_filter.mp he
    obtain ⟨a, p⟩ := e
    cases hfst
    exact ⟨p, aget_eq_some_of_mem_of_nodup hnd hmem, hstale⟩
  · rintro ⟨p, hp, hs⟩
    exact List.mem_map.mpr
      ⟨(c, p), List.mem_filter.mpr ⟨mem_of_aget_eq_some hp, hs⟩, rfl⟩

theorem cleanRoom_connections_mem (now : Nat) (room : Room) (c : Nat) :
    c ∈ (cleanRoom now room).connections ↔
      c ∈ room.connections ∧ c ∉ evictConns now room := by
  simp [cleanRoom, List.mem_filter, memB]

theorem invwf_sweep (env : Env) (docId : String) (st : ServerState)
    (h : InvWF st) : InvWF (cleanupRoom env docId st).state := by
  obtain ⟨⟨wf1, wf2, wf3⟩, inv1, inv2⟩ := h
  rcases hr : aget docId st.rooms with _ | room
  · simp only [cleanupRoom, hr]
    exact ⟨⟨wf1, wf2, wf3⟩, inv1, inv2⟩
  · simp only [cleanupRoom, hr]
    have hndp : (room.presence.map Prod.fst).Nodup := wf3 docId room hr
    set S := evictConns env.now room with hS
    set room' := cleanRoom env.now room with hroom'
    set cs2 := st.connectionState.filter (fun e => !memB e.1 S) with hcs2
    have hSst : ∀ c, c ∈ S →
        ∃ csc, aget c st.connectionState = some csc ∧ csc.documentId = docId := by
      intro c hc
      obtain ⟨p, hp, _⟩ := (mem_evictConns_iff hndp c).mp hc
      have hmem : c ∈ room.connections :=
        ((inv2 docId room c hr).1).mpr (by rw [hp]; rfl)
      exact ((inv2 docId room c hr).2).mp hmem
    have hcs2_not : ∀ c, c ∉ S → aget c cs2 = aget c st.connectionState := by
      intro c hc
      rcases hg : aget c st.connectionState with _ | v
      · exact aget_filter_none _ hg
      · refine aget_filter_pos _ hg ?_
        simp [memB, hc]
    have hcs2_yes : ∀ c, c ∈ S → aget c cs2 = none := by
      intro c hc
      obtain ⟨csc, hcsc, _⟩ := hSst c hc
      refine aget_filter_neg _ wf2 hcsc ?_
      simp [memB, hc]
    have hcs2_some : ∀ c c', aget c cs2 = some c' →
        c ∉ S ∧ aget c st.connectionState = some c' := by
      intro c c' hg
      by_cases hc : c ∈ S
      · rw [hcs2_yes c hc] at hg
        exact Option.noConfusion hg
      · exact ⟨hc, by rw [← hcs2_not c hc]; exact hg⟩
    have hcs2_nodup : (cs2.map Prod.fst).Nodup := nodup_keys_filter _ wf2
    have hpres' : ∀ c p', aget c room'.presence = some p' →
        aget c room.presence = some p' ∧ staleB env.now p' = false := by
      intro c p' hg
      have hmem := mem_of_aget_eq_some hg
      rw [hroom'] at hmem
      obtain ⟨hmem2, hkeep⟩ := List.mem_filter.mp hmem
      refine ⟨aget_eq_some_of_mem_of_nodup hndp hmem2, ?_⟩
      simpa using hkeep
    have hmem' : ∀ c, c ∈ room'.connections ↔
        c ∈ room.connections ∧ c ∉ S := cleanRoom_connections_mem env.now room
    have hiff1' : ∀ c, c ∈ room'.connections ↔
        (aget c room'.presence).isSome = true := by
      intro c
      constructor
      · intro hm
        obtain ⟨hmr, hns⟩ := (hmem' c).mp hm
        obtain ⟨p, hp⟩ := Option.isSome_iff_exists.mp
          (((inv2 docId room c hr).1).mp hmr)
        have hstale : staleB env.now p = false := by
          cases hsb : staleB env.now p
          · rfl
          · exact absurd ((mem_evictConns_iff hndp c).mpr ⟨p, hp, hsb⟩) hns
        have : aget c room'.presence = some p := by
          rw [hroom']
          exact aget_filter_pos _ hp (by simp [hstale])
        rw [this]; rfl
      · intro hs
        obtain ⟨p', hp'⟩ := Option.isSome_iff_exists.mp hs
        obtain ⟨hpo, hns⟩ := hpres' c p' hp'
        have hmr : c ∈ room.connections :=
          ((inv2 docId room c hr).1).mpr (by rw [hpo]; rfl)
        refine (hmem' c).mpr ⟨hmr, ?_⟩
        intro hcS
        obtain ⟨q, hq, hqs⟩ := (mem_evictConns_iff hndp c).mp hcS
        rw [hpo] at hq
        cases hq
        rw [hqs] at hns
        exact Bool.noConfusion hns
    have hiff2' : ∀ c, c ∈ room'.connections ↔
        ∃ cs, aget c cs2 = some cs ∧ cs.documentId = docId := by
      intro c
      constructor
      · intro hm
        obtain ⟨hmr, hns⟩ := (hmem' c).mp hm
        obtain ⟨c', hc', hdd⟩ := ((inv2 docId room c hr).2).mp hmr
        exact ⟨c', by rw [hcs2_not c hns]; exact hc', hdd⟩
      · rintro ⟨c', hc', hdd⟩
        obtain ⟨hns, hcst⟩ := hcs2_some c c' hc'
        exact (hmem' c).mpr ⟨((inv2 docId room c hr).2).mpr ⟨c', hcst, hdd⟩, hns⟩
    have hother2 : ∀ dId r c, dId ≠ docId → aget dId st.rooms = some r →
        (c ∈ r.connections ↔ ∃ cs, aget c cs2 = some cs ∧ cs.documentId = dId) := by
      intro dId r c hne hgr
      constructor
      · intro hm
        obtain ⟨c', hc', hdd⟩ := ((inv2 dId r c hgr).2).mp hm
        have hns : c ∉ S := by
          intro hcS
          obtain ⟨csc, hcsc, hcd⟩ := hSst c hcS
          rw [hc'] at hcsc
          cases hcsc
          rw [hdd] at hcd
          exact hne hcd
        exact ⟨c', by rw [hcs2_not c hns]; exact hc', hdd⟩
      · rintro ⟨c', hc', hdd⟩
        obtain ⟨_, hcst⟩ := hcs2_some c c' hc'
        exact ((inv2 dId r c hgr).2).mpr ⟨c', hcst, hdd⟩
    by_cases hemp : room'.connections.isEmpty = true
    · simp only [if_pos hemp]
      have hallS : ∀ c, c ∈ room.connections → c ∈ S := by
        intro c hc
        by_contra hns
        have : c ∈ room'.connections := (hmem' c).mpr ⟨hc, hns⟩
        rw [List.isEmpty_iff] at hemp
        rw [hemp] at this
        exact List.not_mem_nil c this
      refine ⟨⟨nodup_keys_aerase docId wf1, hcs2_nodup, ?_⟩, ?_, ?_⟩
      · intro dId r hgr
        by_cases hd : dId = docId
        · rw [hd, aget_aerase_self] at hgr
          exact Option.noConfusion hgr
        · rw [aget_aerase_ne st.rooms hd] at hgr
          exact wf3 dId r hgr
      · intro c c' hc'
        obtain ⟨hns, hcst⟩ := hcs2_some c c' hc'
        obtain ⟨room1, hr1, hm1⟩ := inv1 c c' hcst
        by_cases hd : c'.documentId = docId
        · rw [hd, hr] at hr1
          cases hr1
          exact absurd (hallS c hm1) hns
        · exact ⟨room1, by rw [aget_aerase_ne st.rooms hd]; exact hr1, hm1⟩
      · intro dId r c hgr
        by_cases hd : dId = docId
        · rw [hd, aget_aerase_self] at hgr
          exact Option.noConfusion hgr
        · rw [aget_aerase_ne st.rooms hd] at hgr
          exact ⟨(inv2 dId r c hgr).1, hother2 dId r c hd hgr⟩
    · simp only [if_neg hemp]
      refine ⟨⟨nodup_keys_aset docId room' wf1, hcs2_nodup, ?_⟩, ?_, ?_⟩
      · intro dId r hgr
        by_cases hd : dId = docId
        · rw [hd, aget_aset_self] at hgr
          cases hgr
          exact nodup_keys_filter _ hndp
        · rw [aget_aset_ne room' st.rooms hd] at hgr
          exact wf3 dId r hgr
      · intro c c' hc'
        obtain ⟨hns, hcst⟩ := hcs2_some c c' hc'
        obtain ⟨room1, hr1, hm1⟩ := inv1 c c' hcst
        by_cases hd : c'.documentId = docId
        · rw [hd, hr] at hr1
          cases hr1
          refine ⟨room', ?_, ?_⟩
          · rw [hd]; exact aget_aset_self docId room' st.rooms
          · exact (hmem' c).mpr ⟨hm1, hns⟩
        · exact ⟨room1, by rw [aget_aset_ne room' st.rooms hd]; exact hr1, hm1⟩
      · intro dId r c hgr
        by_cases hd : dId = docId
        · rw [hd, aget_aset_self] at hgr
          cases hgr
          exact ⟨hiff1' c, by rw [← hd]; exact hd ▸ hiff2' c⟩
        · rw [aget_aset_ne room' st.rooms hd] at hgr
          exact ⟨(inv2 dId r c hgr).1, hother2 dId r c hd hgr⟩


theorem invwf_handleJoin (env : Env) (st : ServerState) (conn : Nat)
    (tok : Option String) (dv : Option JsId) (stok un ac : Option String)
    (cp : Option Int) (sr : Option (Int × Int)) (h : InvWF st)
    (hun : aget conn st.connectionState = none) :
    InvWF (handleJoin env st conn tok dv stok un ac cp sr).state := by
  unfold handleJoin
  split
  · exact h
  · split
    · exact h
    · split
      · rename_i x1 auth hauth x2 perm hacc
        dsimp only []
        split
        · rename_i r hrm
          exact @invwf_join_insert st conn (idString dv)
            ⟨idString dv, auth.userId, perm⟩ _ r h hun rfl (Or.inl hrm)
        · rename_i hrm
          exact @invwf_join_insert st conn (idString dv)
            ⟨idString dv, auth.userId, perm⟩ _ _ h hun rfl (Or.inr ⟨hrm, rfl, rfl⟩)
      · exact h
      · exact h

theorem invwf_handleYjs (env : Env) (st : ServerState) (conn : Nat)
    (cs : ConnState) (room : Room) (uopt : Option String) (h : InvWF st)
    (hrm : aget cs.documentId st.rooms = some room) :
    InvWF (handleYjs env st conn cs room uopt).state := by
  unfold handleYjs
  split
  · exact h
  · split
    · exact h
    · split
      · exact invwf_set_room_same_membership h hrm rfl rfl
      · exact h

theorem invwf_handleCursor (env : Env) (st : ServerState) (conn : Nat)
    (cs : ConnState) (room : Room) (cp : Option Int) (sr : Option (Int × Int))
    (ty : Option Bool) (h : InvWF st)
    (hrm : aget cs.documentId st.rooms = some room) :
    InvWF (handleCursor env st conn cs room cp sr ty).state := by
  unfold handleCursor
  split
  · exact h
  · rename_i p hp
    exact invwf_presence_refresh _ h hrm hp

theorem invwf_handleHeartbeat (env : Env) (st : ServerState) (conn : Nat)
    (cs : ConnState) (room : Room) (h : InvWF st)
    (hrm : aget cs.documentId st.rooms = some room) :
    InvWF (handleHeartbeat env st conn cs room).state := by
  unfold handleHeartbeat
  split
  · exact h
  · rename_i p hp
    exact invwf_presence_refresh _ h hrm hp

theorem invwf_handleMessage (env : Env) (st : ServerState) (conn : Nat)
    (m : Msg) (h : InvWF st)
    (hjoin : ∀ tok dv stok un ac cp sr, m = Msg.join tok dv stok un ac cp sr →
      aget conn st.connectionState = none) :
    InvWF (handleMessage env st conn m).state := by
  cases m with
  | join tok dv stok un ac cp sr =>
    simp only [handleMessage]
    exact invwf_handleJoin env st conn tok dv stok un ac cp sr h
      (hjoin tok dv stok un ac cp sr rfl)
  | yjsUpdate uopt =>
    simp only [handleMessage]
    split
    · exact h
    · rename_i cs hcs
      split
      · exact h
      · rename_i room hrm
        exact invwf_handleYjs env st conn cs room uopt h hrm
  | cursorUpdate cp sr ty =>
    simp only [handleMessage]
    split
    · exact h
    · rename_i cs hcs
      split
      · exact h
      · rename_i room hrm
        exact invwf_handleCursor env st conn cs room cp sr ty h hrm
  | leave =>
    simp only [handleMessage]
    split
    · exact h
    · rename_i cs hcs
      split
      · exact h
      · rename_i room hrm
        exact invwf_remove_conn h hcs hrm
  | heartbeat =>
    simp only [handleMessage]
    split
    · exact h
    · rename_i cs hcs
      split
      · exact h
      · rename_i room hrm
        exact invwf_handleHeartbeat env st conn cs room h hrm
  | other =>
    simp only [handleMessage]
    split
    · exact h
    · split
      · exact h
      · exact h

theorem invwf_step (st : ServerState) (e : Event) (h : InvWF st)
    (hok : eventOK st e = true) : InvWF (step st e) := by
  cases e with
  | msg env conn m =>
    simp only [step]
    refine invwf_handleMessage env st conn m h ?_
    intro tok dv stok un ac cp sr hm
    subst hm
    simpa [eventOK] using hok
  | close env conn =>
    simp only [step, handleClose]
    split
    · exact h
    · rename_i cs hcs
      split
      · rename_i hrm
        obtain ⟨room1, hr1, _⟩ := h.2.1 conn cs hcs
        rw [hrm] at hr1
        exact Option.noConfusion hr1
      · rename_i room hrm
        exact invwf_remove_conn h hcs hrm
  | pong env conn =>
    simp only [step, handlePong]
    split
    · exact h
    · rename_i cs hcs
      split
      · exact h
      · rename_i room hrm
        split
        · exact h
        · rename_i p hp
          exact invwf_presence_refresh _ h hrm hp
  | sweep env docId =>
    simp only [step]
    exact invwf_sweep env docId st h
  | fire docId =>
    simp only [step]
    split
    · rename_i room hrm
      exact invwf_set_room_same_membership h hrm rfl rfl
    · exact h

theorem invwf_initState : InvWF initState := by
  refine ⟨⟨List.nodup_nil, List.nodup_nil, ?_⟩, ?_, ?_⟩
  · intro dId room hgr
    simp [initState, aget] at hgr
  · intro conn cs hcs
    simp [initState, aget] at hcs
  · intro dId room conn hgr
    simp [initState, aget] at hgr

theorem invwf_goodRun (es : List Event) :
    ∀ st, InvWF st → goodRun st es = true → InvWF (es.foldl step st) := by
  induction es with
  | nil => intro st h _; simpa using h
  | cons e es ih =>
    intro st h hg
    simp only [goodRun, Bool.and_eq_true] at hg
    simp only [List.foldl_cons]
    exact ih (step st e) (invwf_step st e h hg.1) hg.2

/-! ### Properties of the presence dedup (claim C9) -/

theorem mem_aset_iff {α β : Type} [DecidableEq α] {k : α} {v : β} {e : α × β}
    {l : List (α × β)} (hnd : (l.map Prod.fst).Nodup) :
    e ∈ aset k v l ↔ e = (k, v) ∨ (e ∈ l ∧ e.1 ≠ k) := by
  induction l with
  | nil =>
    simp [aset]
  | cons hd tl ih =>
    obtain ⟨a, b⟩ := hd
    simp only [List.map_cons, List.nodup_cons] at hnd
    by_cases ha : a = k
    · subst ha
      have he : aset a v ((a, b) :: tl) = (a, v) :: tl := by simp [aset]
      rw [he]
      constructor
      · intro hm
        rcases List.mem_cons.mp hm with h1 | h2
        · exact Or.inl h1
        · refine Or.inr ⟨List.mem_cons_of_mem _ h2, ?_⟩
          intro hek
          exact hnd.1 (hek ▸ List.mem_map.mpr ⟨e, h2, rfl⟩)
      · rintro (h1 | ⟨h2, h3⟩)
        · exact h1 ▸ List.mem_cons_self _ _
        · rcases List.mem_cons.mp h2 with h4 | h5
          · exact absurd (h4 ▸ rfl) h3
          · exact List.mem_cons_of_mem _ h5
    · have he : aset k v ((a, b) :: tl) = (a, b) :: aset k v tl := by simp [aset, ha]
      rw [he]
      constructor
      · intro hm
        rcases List.mem_cons.mp hm with h1 | h2
        · exact Or.inr ⟨h1 ▸ List.mem_cons_self _ _, h1 ▸ ha⟩
        · rcases (ih hnd.2).mp h2 with h3 | ⟨h4, h5⟩
          · exact Or.inl h3
          · exact Or.inr ⟨List.mem_cons_of_mem _ h4, h5⟩
      · rintro (h1 | ⟨h2, h3⟩)
        · exact List.mem_cons_of_mem _ ((ih hnd.2).mpr (Or.inl h1))
        · rcases List.mem_cons.mp h2 with h4 | h5
          · exact h4 ▸ List.mem_cons_self _ _
          · exact List.mem_cons_of_mem _ ((ih hnd.2).mpr (Or.inr ⟨h5, h3⟩))

theorem dacc_step {processed : List Presence} {acc : List (String × Presence)}
    (p : Presence) (h : Dacc processed acc) :
    Dacc (processed ++ [p]) (dedupeStep acc p) := by
  obtain ⟨hnd, hmem, hrep⟩ := h
  have hnone : ∀ r, r ∈ processed → r.userId = p.userId →
      aget p.userId acc = none → False := by
    intro r hr hru hg
    obtain ⟨q, hq⟩ := hrep r hr
    rw [hru, hg] at hq
    exact Option.noConfusion hq
  unfold dedupeStep
  rcases hg : aget p.userId acc with _ | q
  · refine ⟨nodup_keys_aset p.userId p hnd, ?_, ?_⟩
    · intro e he
      rcases (mem_aset_iff hnd).mp he with h1 | ⟨h2, h3⟩
      · subst h1
        refine ⟨rfl, List.mem_append.mpr (Or.inr (List.mem_singleton.mpr rfl)), ?_⟩
        intro r hr hru
        rcases List.mem_append.mp hr with h4 | h5
        · exact absurd hg (hnone r h4 hru)
        · rw [List.mem_singleton.mp h5]
      · obtain ⟨he1, he2, he3⟩ := hmem e h2
        refine ⟨he1, List.mem_append.mpr (Or.inl he2), ?_⟩
        intro r hr hru
        rcases List.mem_append.mp hr with h4 | h5
        · exact he3 r h4 hru
        · rw [List.mem_singleton.mp h5] at hru
          exact absurd hru.symm (fun hc => h3 (hc ▸ rfl))
    · intro r hr
      rcases List.mem_append.mp hr with h4 | h5
      · obtain ⟨q, hq⟩ := hrep r h4
        by_cases hru : r.userId = p.userId
        · exact ⟨p, by rw [hru, aget_aset_self]⟩
        · exact ⟨q, by rw [aget_aset_ne p acc hru]; exact hq⟩
      · rw [List.mem_singleton.mp h5]
        exact ⟨p, aget_aset_self p.userId p acc⟩
  · have hqmem : (p.userId, q) ∈ acc := mem_of_aget_eq_some hg
    have hqfacts := hmem (p.userId, q) hqmem
    show Dacc (processed ++ [p])
      (if q.lastHeartbeat < p.lastHeartbeat then aset p.userId p acc else acc)
    by_cases hlt : q.lastHeartbeat < p.lastHeartbeat
    · rw [if_pos hlt]
      refine ⟨nodup_keys_aset p.userId p hnd, ?_, ?_⟩
      · intro e he
        rcases (mem_aset_iff hnd).mp he with h1 | ⟨h2, h3⟩
        · subst h1
          refine ⟨rfl, List.mem_append.mpr (Or.inr (List.mem_singleton.mpr rfl)), ?_⟩
          intro r hr hru
          rcases List.mem_append.mp hr with h4 | h5
          · exact le_trans (hqfacts.2.2 r h4 hru) (le_of_lt hlt)
          · rw [List.mem_singleton.mp h5]
        · obtain ⟨he1, he2, he3⟩ := hmem e h2
          refine ⟨he1, List.mem_append.mpr (Or.inl he2), ?_⟩
          intro r hr hru
          rcases List.mem_append.mp hr with h4 | h5
          · exact he3 r h4 hru
          · rw [List.mem_singleton.mp h5] at hru
            exact absurd hru.symm (fun hc => h3 (hc ▸ rfl))
      · intro r hr
        rcases List.mem_append.mp hr with h4 | h5
        · obtain ⟨q2, hq2⟩ := hrep r h4
          by_cases hru : r.userId = p.userId
          · exact ⟨p, by rw [hru, aget_aset_self]⟩
          · exact ⟨q2, by rw [aget_aset_ne p acc hru]; exact hq2⟩
        · rw [List.mem_singleton.mp h5]
          exact ⟨p, aget_aset_self p.userId p acc⟩
    · rw [if_neg hlt]
      refine ⟨hnd, ?_, ?_⟩
      · intro e he
        obtain ⟨he1, he2, he3⟩ := hmem e he
        refine ⟨he1, List.mem_append.mpr (Or.inl he2), ?_⟩
        intro r hr hru
        rcases List.mem_append.mp hr with h4 | h5
        · exact he3 r h4 hru
        · rw [List.mem_singleton.mp h5] at hru ⊢
          have he4 : aget e.1 acc = some e.2 := by
            obtain ⟨e1, e2⟩ := e
            exact aget_eq_some_of_mem_of_nodup hnd he
          rw [← hru] at he4
          rw [hg] at he4
          injection he4 with he5
          rw [← he5]
          exact Nat.le_of_not_lt hlt
      · intro r hr
        rcases List.mem_append.mp hr with h4 | h5
        · exact hrep r h4
        · rw [List.mem_singleton.mp h5]
          exact ⟨q, hg⟩

theorem dacc_foldl (rest : List Presence) :
    ∀ processed acc, Dacc processed acc →
      Dacc (processed ++ rest) (rest.foldl dedupeStep acc) := by
  induction rest with
  | nil =>
    intro processed acc h
    simpa using h
  | cons p rest ih =>
    intro processed acc h
    have h1 := ih (processed ++ [p]) (dedupeStep acc p) (dacc_step p h)
    simpa using h1

theorem dacc_presenceUsers (ps : List Presence) :
    Dacc ps (ps.foldl dedupeStep []) := by
  have h0 : Dacc [] ([] : List (String × Presence)) := by
    refine ⟨List.nodup_nil, ?_, ?_⟩
    · intro e he; simp at he
    · intro p hp; simp at hp
  simpa using dacc_foldl ps [] [] h0

theorem pairwise_userId_of_keyed {acc : List (String × Presence)}
    (hnd : (acc.map Prod.fst).Nodup)
    (hkey : ∀ e, e ∈ acc → e.2.userId = e.1) :
    (acc.map Prod.snd).Pairwise (fun a b => a.userId ≠ b.userId) := by
  induction acc with
  | nil => simp
  | cons hd tl ih =>
    obtain ⟨k, q⟩ := hd
    simp only [List.map_cons, List.nodup_cons] at hnd
    simp only [List.map_cons, List.pairwise_cons]
    constructor
    · intro b hb
      obtain ⟨e, he, hbe⟩ := List.mem_map.mp hb
      have h1 : q.userId = k := hkey (k, q) (List.mem_cons_self _ _)
      have h2 : e.2.userId = e.1 := hkey e (List.mem_cons_of_mem _ he)
      intro hc
      rw [h1, ← hbe, h2] at hc
      exact hnd.1 (hc ▸ List.mem_map.mpr ⟨e, he, rfl⟩)
    · exact ih hnd.2 (fun e he => hkey e (List.mem_cons_of_mem _ he))

/-! ### Claim C10 - silent drop of update-less frames -/

/-- C10: for every joined connection - viewer or editor - a `yjs_update`
frame whose `update` field is missing is dropped silently: the server
state (hence the Room's CRDT and its persist flag) is unchanged, nothing
is broadcast, no frame at all is sent back - not even the `Read-only
access` error a viewer would otherwise get - and nothing is closed. -/
theorem yjs_update_without_payload_dropped (env : Env) (st : ServerState)
    (conn : Nat) (cs : ConnState) (room : Room)
    (h1 : aget conn st.connectionState = some cs)
    (h2 : aget cs.documentId st.rooms = some room) :
    handleMessage env st conn (Msg.yjsUpdate none) = ⟨st, [], []⟩ := by
  simp only [handleMessage, h1, h2, handleYjs, falsyOptStr, if_pos]

theorem yjs_update_without_payload_dropped_witness :
    aget 0 (run [exJoinB]).connectionState = some ⟨"d1", "bob", "viewer"⟩ ∧
    handleMessage exEnvB (run [exJoinB]) 0 (Msg.yjsUpdate none) =
      ⟨run [exJoinB], [], []⟩ :=
  ⟨by decide,
    yjs_update_without_payload_dropped exEnvB (run [exJoinB]) 0
      ⟨"d1", "bob", "viewer"⟩
      ⟨[], [0], [(0, ⟨"bob", "b@x", "#0ea5e9", 0, 0, 0, false, 50⟩)], false⟩
      (by decide) (by decide)⟩

/-! ### Claim C1 - viewer updates are rejected -/

/-- C1 counterexample: a connection joined with permission viewer sends a
`yjs_update` frame (with no `update` payload); it receives no frame at
all, in particular not exactly one `Read-only access` error, because the
missing-payload check precedes the permission check. -/
theorem viewer_update_without_payload_gets_no_error_cex :
    aget 0 (run [exJoinB]).connectionState = some ⟨"d1", "bob", "viewer"⟩ ∧
    (handleMessage exEnvB (run [exJoinB]) 0 (Msg.yjsUpdate none)).outputs = [] := by
  decide

/-- C1 (amended: restricted to `yjs_update` frames actually carrying a
non-empty `update` payload): for every connection joined with permission
viewer, processing such a frame leaves the server state - hence the
Room's CRDT - unchanged, broadcasts nothing to any peer, sends the sender
exactly one `error` frame with message `Read-only access`, and closes
nothing, so the connection remains open. -/
theorem viewer_update_rejected (env : Env) (st : ServerState) (conn : Nat)
    (cs : ConnState) (room : Room) (u : String)
    (h1 : aget conn st.connectionState = some cs)
    (h2 : cs.permission = "viewer")
    (h3 : aget cs.documentId st.rooms = some room)
    (h4 : u ≠ "") :
    handleMessage env st conn (Msg.yjsUpdate (some u)) =
      ⟨st, [(conn, Frame.errorMsg "Read-only access")], []⟩ := by
  simp only [handleMessage, h1, h3, handleYjs, falsyOptStr, h4, decide_eq_true_eq,
    if_false, h2, if_pos, if_neg, decide_False, Bool.false_eq_true]

theorem viewer_update_rejected_witness :
    aget 0 (run [exJoinB]).connectionState = some ⟨"d1", "bob", "viewer"⟩ ∧
    handleMessage exEnvB (run [exJoinB]) 0 (Msg.yjsUpdate (some "u")) =
      ⟨run [exJoinB], [(0, Frame.errorMsg "Read-only access")], []⟩ :=
  ⟨by decide,
    viewer_update_rejected exEnvB (run [exJoinB]) 0 ⟨"d1", "bob", "viewer"⟩
      ⟨[], [0], [(0, ⟨"bob", "b@x", "#0ea5e9", 0, 0, 0, false, 50⟩)], false⟩
      "u" (by decide) rfl (by decide) (by decide)⟩

/-! ### Claim C6 - which frames refresh the heartbeat -/

/-- C6 counterexample: a joined connection processes a `yjs_update` frame
at time 100, yet its presence entry keeps `lastHeartbeat = 50` from the
earlier join - the `yjs_update` handler never touches presence, so not
every inbound frame refreshes `lastHeartbeat`. -/
theorem yjs_update_does_not_refresh_heartbeat_cex :
    exEnvA2.now = 100 ∧
    aget "d1" (handleMessage exEnvA2 (run [exJoin1]) 0
        (Msg.yjsUpdate (some "u"))).state.rooms =
      some ⟨["u"], [0], [(0, ⟨"alice", "a@x", "#0ea5e9", 0, 0, 0, false, 50⟩)], true⟩ ∧
    (50 : Nat) ≠ 100 := by
  decide

/-- C6 (amended: `cursor_update`, `heartbeat` and transport-level pong
frames set the connection's `lastHeartbeat` to the current time, but
`yjs_update` frames leave the Room's presence map - hence every
`lastHeartbeat` in it - unchanged). -/
theorem heartbeat_refreshed_except_on_yjs_update (env : Env) (st : ServerState)
    (conn : Nat) (cs : ConnState) (room : Room) (p : Presence)
    (h1 : aget conn st.connectionState = some cs)
    (h2 : aget cs.documentId st.rooms = some room)
    (hp : aget conn room.presence = some p) :
    (∀ cpo sro tyo, ∃ p',
      aget cs.documentId
          (handleMessage env st conn (Msg.cursorUpdate cpo sro tyo)).state.rooms =
        some { room with presence := aset conn p' room.presence } ∧
      p'.lastHeartbeat = env.now) ∧
    (aget cs.documentId (handleMessage env st conn Msg.heartbeat).state.rooms =
      some { room with
             presence := aset conn { p with lastHeartbeat := env.now } room.presence }) ∧
    (aget cs.documentId (handlePong env st conn).rooms =
      some { room with
             presence := aset conn { p with lastHeartbeat := env.now } room.presence }) ∧
    (∀ uopt room2,
      aget cs.documentId
          (handleMessage env st conn (Msg.yjsUpdate uopt)).state.rooms = some room2 →
      room2.presence = room.presence) := by
  refine ⟨?_, ?_, ?_, ?_⟩
  · intro cpo sro tyo
    refine ⟨{ p with
        cursorPosition := cpo.getD p.cursorPosition,
        selStart := (sro.map Prod.fst).getD p.selStart,
        selEnd := (sro.map Prod.snd).getD p.selEnd,
        isTyping := tyo.getD p.isTyping,
        lastHeartbeat := env.now }, ?_, rfl⟩
    simp only [handleMessage, h1, h2, handleCursor, hp]
    exact aget_aset_self cs.documentId _ st.rooms
  · simp only [handleMessage, h1, h2, handleHeartbeat, hp]
    exact aget_aset_self cs.documentId _ st.rooms
  · simp only [handlePong, h1, h2, hp]
    exact aget_aset_self cs.documentId _ st.rooms
  · intro uopt room2 hg
    by_cases hfal : falsyOptStr uopt = true
    · simp only [handleMessage, h1, h2, handleYjs, hfal, if_true] at hg
      rw [← Option.some.inj hg]
    · by_cases hview : cs.permission = "viewer"
      · simp [handleMessage, h1, h2, handleYjs, hfal, hview] at hg
        rw [← hg]
      · by_cases happ : env.applyOk = true
        · simp [handleMessage, h1, h2, handleYjs, hfal, hview, happ,
            aget_aset_self] at hg
          rw [← hg]
        · simp [handleMessage, h1, h2, handleYjs, hfal, hview, happ] at hg
          rw [← hg]

theorem heartbeat_refreshed_except_on_yjs_update_witness :
    aget 0 (run [exJoin1]).connectionState = some ⟨"d1", "alice", "owner"⟩ ∧
    aget "d1" (handleMessage exEnvA2 (run [exJoin1]) 0 Msg.heartbeat).state.rooms =
      some ⟨[], [0], [(0, ⟨"alice", "a@x", "#0ea5e9", 0, 0, 0, false, 100⟩)], false⟩ :=
  ⟨by decide, by
    have h := (heartbeat_refreshed_except_on_yjs_update exEnvA2 (run [exJoin1]) 0
      ⟨"d1", "alice", "owner"⟩
      ⟨[], [0], [(0, ⟨"alice", "a@x", "#0ea5e9", 0, 0, 0, false, 50⟩)], false⟩
      ⟨"alice", "a@x", "#0ea5e9", 0, 0, 0, false, 50⟩
      (by decide) (by decide) (by decide)).2.1
    exact h⟩

/-! ### Claim C7 - error wording for empty or malformed document ids -/

/-- C7 counterexample: a `join_document` frame with a well-formed token
and an empty-string `documentId` is answered with `Unauthorized` (the
shared `!token || !documentId` guard fires first), not with the claimed
`Document not found`; the connection is closed either way. -/
theorem join_empty_id_says_unauthorized_cex :
    handleMessage exEnvA initState 0
        (Msg.join (some "t") (some (JsId.str "")) none none none none none) =
      ⟨initState, [(0, Frame.errorMsg "Unauthorized")], [0]⟩ ∧
    Frame.errorMsg "Unauthorized" ≠ Frame.errorMsg "Document not found" := by
  decide

/-- C7 (amended: a `join_document` whose `documentId` is missing or the
empty string is refused with a single `error` frame reading
`Unauthorized` and the connection is closed, before any token
verification; only a present, truthy but non-string `documentId` reaches
the access resolver's `invalid-id` branch and is refused with `Document
not found` and closed). -/
theorem join_bad_document_id (env : Env) (st : ServerState) (conn : Nat)
    (tok : String) (stok un ac : Option String) (cp : Option Int)
    (sr : Option (Int × Int)) (htok : tok ≠ "") :
    (∀ dv, falsyId dv = true →
      handleMessage env st conn (Msg.join (some tok) dv stok un ac cp sr) =
        ⟨st, [(conn, Frame.errorMsg "Unauthorized")], [conn]⟩) ∧
    (∀ auth, env.authResult = some auth →
      handleMessage env st conn
          (Msg.join (some tok) (some JsId.other) stok un ac cp sr) =
        ⟨st, [(conn, Frame.errorMsg "Document not found")], [conn]⟩) := by
  constructor
  · intro dv hdv
    simp [handleMessage, handleJoin, falsyOptStr, htok, hdv]
  · intro auth hauth
    simp [handleMessage, handleJoin, falsyOptStr, falsyId, htok, hauth,
      getDocumentAccess]

theorem join_bad_document_id_witness :
    falsyId (some (JsId.str "")) = true ∧
    handleMessage exEnvA initState 0
        (Msg.join (some "t") (some (JsId.str "")) none none none none none) =
      ⟨initState, [(0, Frame.errorMsg "Unauthorized")], [0]⟩ :=
  ⟨by decide,
    (join_bad_document_id exEnvA initState 0 "t" none none none none none
      (by decide)).1 (some (JsId.str "")) (by decide)⟩

/-! ### Claim C2 - room registry versus pending persists -/

/-- C2 counterexample: the trace join, update, leave, sweep reaches a
state where room `d1` sits in the registry with no connections and
`persistTimeout = true`; the very next sweeper pass removes it from the
registry even though its persist is still pending. -/
theorem room_removed_while_persist_pending_cex :
    aget "d1" (run [exJoin1, exUpd1, exLeave1]).rooms =
      some ⟨["u"], [], [], true⟩ ∧
    aget "d1" (run [exJoin1, exUpd1, exLeave1, exSweep1]).rooms = none := by
  decide

/-- C2 (amended: the sweeper removes a Room from the registry exactly
when the Room has no connections left after its eviction pass, regardless
of whether the Room's persist timer is pending - the pending-persist flag
is never consulted; between the last leave and the next sweeper pass an
empty Room may also sit in the registry with no pending persist). -/
theorem sweeper_prunes_empty_rooms_ignoring_persist (env : Env)
    (docId : String) (st : ServerState) (room : Room)
    (hr : aget docId st.rooms = some room) :
    aget docId (cleanupRoom env docId st).state.rooms =
      (if (cleanRoom env.now room).connections.isEmpty then none
       else some (cleanRoom env.now room)) := by
  simp only [cleanupRoom, hr]
  by_cases hemp : (cleanRoom env.now room).connections.isEmpty = true
  · simp only [hemp, if_true]
    exact aget_aerase_self docId st.rooms
  · simp only [hemp, if_false]
    exact aget_aset_self docId (cleanRoom env.now room) st.rooms

theorem sweeper_prunes_empty_rooms_ignoring_persist_witness :
    aget "d1" (run [exJoin1, exUpd1, exLeave1]).rooms =
      some ⟨["u"], [], [], true⟩ ∧
    aget "d1" (cleanupRoom exEnvA2 "d1" (run [exJoin1, exUpd1, exLeave1])).state.rooms =
      (if (cleanRoom 100 (⟨["u"], [], [], true⟩ : Room)).connections.isEmpty then none
       else some (cleanRoom 100 (⟨["u"], [], [], true⟩ : Room))) :=
  ⟨by decide,
    sweeper_prunes_empty_rooms_ignoring_persist exEnvA2 "d1"
      (run [exJoin1, exUpd1, exLeave1]) ⟨["u"], [], [], true⟩ (by decide)⟩

/-! ### Claim C8 - the three tracking structures move together -/

/-- C8 counterexample: a connection that is already joined to `d1` sends
a second `join_document` for `d2`; afterwards it is still a member of
`d1`'s `connections` set and `presence` map while `connectionState` maps
it to `d2`, so membership in `d1`'s structures no longer coincides with
`connectionState` pointing at `d1`. -/
theorem double_join_breaks_tracking_cex :
    aget "d1" (run [exJoin1, exJoin2]).rooms =
      some ⟨[], [0], [(0, ⟨"alice", "a@x", "#0ea5e9", 0, 0, 0, false, 50⟩)], false⟩ ∧
    aget 0 (run [exJoin1, exJoin2]).connectionState =
      some ⟨"d2", "alice", "owner"⟩ ∧
    ("d1" : String) ≠ "d2" := by
  decide

/-- C8 (amended: on every trace from the empty initial state in which a
`join_document` frame is only processed for connections not currently
joined - the guard `goodRun` - the invariant holds at every reachable
state: a connection is a member of a Room's `connections` set iff it is a
key of that Room's `presence` map iff `connectionState` maps it to that
Room's document id, and every `connectionState` entry points at a
registered Room containing its connection; join, leave, close and sweeper
eviction all preserve this.  A second join from an already-joined
connection breaks it, as the counterexample shows). -/
theorem tracking_structures_consistent (es : List Event)
    (h : goodRun initState es = true) : InvState (run es) :=
  (invwf_goodRun es initState invwf_initState h).2

theorem tracking_structures_consistent_witness :
    goodRun initState [exJoin1, exUpd1, exLeave1, exSweep1] = true ∧
    InvState (run [exJoin1, exUpd1, exLeave1, exSweep1]) :=
  ⟨by decide, tracking_structures_consistent [exJoin1, exUpd1, exLeave1, exSweep1]
    (by decide)⟩

/-! ### Claim C3 - access resolution order -/

/-- C3: for every input with a well-formed id and a successful document
fetch, access resolution is ordered and first-grant-wins: the owner check
wins outright; otherwise an explicit `(documentId, userId)` share wins
regardless of any links; otherwise, when the share token (if any) matches
no valid link, the result is `no-access` - never `not-found`; and any
grant produced by the fall-through comes from a share link whose
`expiresAt` is NULL or strictly in the future, so an expired link never
grants access. -/
theorem access_resolution_ordered (db : Db) (now : Nat) (s uid : String)
    (tokOpt : Option String) (ownerId : String)
    (hs : s ≠ "") (hdoc : aget s db.documents = some ownerId) :
    (ownerId = uid →
      getDocumentAccess db now (some (JsId.str s)) uid tokOpt false =
        Access.granted "owner") ∧
    (∀ p, ownerId ≠ uid → aget (s, uid) db.shares = some p →
      getDocumentAccess db now (some (JsId.str s)) uid tokOpt false =
        Access.granted p) ∧
    (ownerId ≠ uid → aget (s, uid) db.shares = none →
      (∀ tok, tokOpt = some tok → findValidShareLink db.links s tok now = none) →
      getDocumentAccess db now (some (JsId.str s)) uid tokOpt false =
        Access.noAccess) ∧
    (∀ p, ownerId ≠ uid → aget (s, uid) db.shares = none →
      getDocumentAccess db now (some (JsId.str s)) uid tokOpt false =
        Access.granted p →
      ∃ tok l, tokOpt = some tok ∧ l ∈ db.links ∧ l.documentId = s ∧
        l.token = tok ∧ l.permission = p ∧
        (l.expiresAt = none ∨ ∃ t, l.expiresAt = some t ∧ now < t)) := by
  refine ⟨?_, ?_, ?_, ?_⟩
  · intro h
    simp [getDocumentAccess, hs, hdoc, h]
  · intro p hne hsh
    simp [getDocumentAccess, hs, hdoc, hne, hsh]
  · intro hne hsh hlink
    rcases tokOpt with _ | tok
    · simp [getDocumentAccess, hs, hdoc, hne, hsh]
    · by_cases htok : tok = ""
      · simp [getDocumentAccess, hs, hdoc, hne, hsh, htok]
      · have hl := hlink tok rfl
        simp [getDocumentAccess, hs, hdoc, hne, hsh, htok, hl]
  · intro p hne hsh hg
    rcases tokOpt with _ | tok
    · simp [getDocumentAccess, hs, hdoc, hne, hsh] at hg
    · by_cases htok : tok = ""
      · simp [getDocumentAccess, hs, hdoc, hne, hsh, htok] at hg
      · rcases hfind : findValidShareLink db.links s tok now with _ | l
        · simp [getDocumentAccess, hs, hdoc, hne, hsh, htok, hfind] at hg
        · simp [getDocumentAccess, hs, hdoc, hne, hsh, htok, hfind] at hg
          have hfind2 : List.find?
              (fun l => decide (l.documentId = s) && decide (l.token = tok) &&
                linkValid now l) db.links = some l := hfind
          have hmem := List.mem_of_find?_eq_some hfind2
          have hp := List.find?_some hfind2
          simp only [Bool.and_eq_true, decide_eq_true_eq] at hp
          refine ⟨tok, l, rfl, hmem, hp.1.1, hp.1.2, hg, ?_⟩
          rcases hexp : l.expiresAt with _ | t
          · exact Or.inl rfl
          · refine Or.inr ⟨t, rfl, ?_⟩
            have hv := hp.2
            rw [linkValid, hexp] at hv
            exact of_decide_eq_true hv

theorem access_resolution_ordered_witness :
    aget "d1" exDb.documents = some "alice" ∧
    getDocumentAccess exDb 0 (some (JsId.str "d1")) "alice" none false =
      Access.granted "owner" :=
  ⟨by decide,
    (access_resolution_ordered exDb 0 "d1" "alice" none "alice"
      (by decide) (by decide)).1 rfl⟩

/-! ### Claim C4 - tiered persistence -/

/-- C4 counterexample: on a persist where the cache is ready but the
cache `set` fails (without a connection-closed signal), the code falls
through and creates a durable version row - so "cache ready" alone does
not preclude a durable write. -/
theorem durable_row_despite_cache_ready_cex :
    (⟨true, false, false, false, none, some "o1"⟩ : PersistEnv).cacheReady = true ∧
    (persistRoom ⟨true, false, false, false, none, some "o1"⟩ "s" 0 5000).createdRow =
      some ⟨"o1", "Auto-save", "s"⟩ := by
  decide

theorem persistDb_created (env : PersistEnv) (snapshot : String) (lastP now : Nat)
    (ca : Bool) (r : Version)
    (h : (persistDb env snapshot lastP now ca).createdRow = some r) :
    5000 ≤ now - lastP ∧
    (env.latest = none ∨ ∃ v, env.latest = some v ∧ v.snapshot ≠ snapshot) ∧
    (∃ o, env.docOwner = some o ∧ r.authorId = o) ∧
    r.summary = "Auto-save" ∧ r.snapshot = snapshot := by
  unfold persistDb at h
  by_cases h5 : now - lastP < 5000
  · simp [h5] at h
  · by_cases hdf : env.dbFail = true
    · simp [h5, hdf] at h
    · rcases hlat : env.latest with _ | v
      · rcases hown : env.docOwner with _ | o
        · simp [h5, hdf, hlat, hown] at h
        · simp [h5, hdf, hlat, hown] at h
          subst h
          exact ⟨Nat.le_of_not_lt h5, Or.inl rfl, ⟨o, rfl, rfl⟩, rfl, rfl⟩
      · by_cases hsnap : v.snapshot = snapshot
        · simp [h5, hdf, hlat, hsnap] at h
        · rcases hown : env.docOwner with _ | o
          · simp [h5, hdf, hlat, hsnap, hown] at h
          · simp [h5, hdf, hlat, hsnap, hown] at h
            subst h
            exact ⟨Nat.le_of_not_lt h5, Or.inr ⟨v, rfl, hsnap⟩, ⟨o, rfl, rfl⟩,
              rfl, rfl⟩

/-- C4 (amended: when the cache is ready AND the cache write succeeds,
the snapshot goes only to the cache and no durable version row is
created; a durable row can only be created when the cache is not ready or
the cache write failed, and then only if at least 5 s have passed since
the last durable auto-save, only if no version exists yet or the encoded
bytes differ from the latest version's bytes, and any such row carries
the document owner as `authorId` and the summary `Auto-save`). -/
theorem persist_tiering (env : PersistEnv) (snapshot : String) (lastP now : Nat) :
    (env.cacheReady = true → env.cacheSetOk = true →
      persistRoom env snapshot lastP now = ⟨true, none, lastP, true⟩) ∧
    (∀ r, (persistRoom env snapshot lastP now).createdRow = some r →
      (env.cacheReady = false ∨ env.cacheSetOk = false) ∧
      5000 ≤ now - lastP ∧
      (env.latest = none ∨ ∃ v, env.latest = some v ∧ v.snapshot ≠ snapshot) ∧
      (∃ o, env.docOwner = some o ∧ r.authorId = o) ∧
      r.summary = "Auto-save" ∧ r.snapshot = snapshot) := by
  constructor
  · intro h1 h2
    simp [persistRoom, h1, h2]
  · intro r hr
    unfold persistRoom at hr
    by_cases h1 : env.cacheReady = true
    · by_cases h2 : env.cacheSetOk = true
      · simp [h1, h2] at hr
      · simp only [h1, if_true] at hr
        rw [if_neg h2] at hr
        exact ⟨Or.inr (by simpa using h2),
          persistDb_created env snapshot lastP now _ r hr⟩
    · rw [if_neg h1] at hr
      exact ⟨Or.inl (by simpa using h1),
        persistDb_created env snapshot lastP now _ r hr⟩

theorem persist_tiering_witness :
    (⟨true, true, false, false, none, some "o1"⟩ : PersistEnv).cacheReady = true ∧
    persistRoom ⟨true, true, false, false, none, some "o1"⟩ "s" 0 5000 =
      ⟨true, none, 0, true⟩ :=
  ⟨rfl, (persist_tiering ⟨true, true, false, false, none, some "o1"⟩ "s" 0 5000).1
    rfl rfl⟩

/-! ### Claim C5 - cache-first restore, loads never fail a join -/

/-- C5: on Room creation (no room registered for the document yet) with a
granted access, the join always succeeds - the connection ends joined to
a registered room, nothing is closed - and the new Room's CRDT is
`loadDoc` of the load environment, which is cache-first: a ready cache
returning nonempty bytes wins; on cache miss or outage the latest durable
version's bytes are applied; when both tiers fail (or yield nothing) the
CRDT starts empty.  A load error never fails the join. -/
theorem join_restores_snapshot_and_succeeds (env : Env) (st : ServerState)
    (conn : Nat) (tok s : String) (stok un ac : Option String) (cp : Option Int)
    (sr : Option (Int × Int)) (auth : Auth) (perm : String)
    (htok : tok ≠ "") (hs : s ≠ "")
    (hauth : env.authResult = some auth)
    (hacc : getDocumentAccess env.db env.now (some (JsId.str s)) auth.userId stok
      env.docFetchErr = Access.granted perm)
    (hnew : aget s st.rooms = none) :
    (∃ room', aget s (handleMessage env st conn
        (Msg.join (some tok) (some (JsId.str s)) stok un ac cp sr)).state.rooms =
          some room' ∧ room'.doc = loadDoc env.load ∧ conn ∈ room'.connections) ∧
    aget conn (handleMessage env st conn
        (Msg.join (some tok) (some (JsId.str s)) stok un ac cp sr)).state.connectionState =
      some ⟨s, auth.userId, perm⟩ ∧
    (handleMessage env st conn
        (Msg.join (some tok) (some (JsId.str s)) stok un ac cp sr)).closes = [] ∧
    (∀ b, env.load.cacheReady = true → env.load.cacheGet = Fetch.ok (some b) →
      b ≠ "" → loadDoc env.load = [b]) ∧
    (∀ v, (env.load.cacheReady = false ∨ env.load.cacheGet = Fetch.err ∨
        env.load.cacheGet = Fetch.ok none ∨ env.load.cacheGet = Fetch.ok (some "")) →
      env.load.dbLatest = Fetch.ok (some v) → v.snapshot ≠ "" →
      loadDoc env.load = [v.snapshot]) ∧
    ((env.load.cacheReady = false ∨ env.load.cacheGet = Fetch.err) →
      env.load.dbLatest = Fetch.err → loadDoc env.load = []) := by
  have hguard : (falsyOptStr (some tok) || falsyId (some (JsId.str s))) = false := by
    simp [falsyOptStr, falsyId, htok, hs]
  refine ⟨?_, ?_, ?_, ?_, ?_, ?_⟩
  · simp [handleMessage, handleJoin, hguard, hauth, hacc, idString, hnew, sadd, aset]
    exact ⟨_, aget_aset_self s _ st.rooms, rfl, by simp⟩
  · simp [handleMessage, handleJoin, hguard, hauth, hacc, idString, hnew]
    exact aget_aset_self conn _ st.connectionState
  · simp [handleMessage, handleJoin, hguard, hauth, hacc, idString, hnew]
  · intro b h1 h2 h3
    simp [loadDoc, h1, h2, h3]
  · intro v h1 h2 h3
    rcases h1 with h1 | h1 | h1 | h1 <;> simp [loadDoc, h1, h2, h3]
  · intro h1 h2
    rcases h1 with h1 | h1 <;> simp [loadDoc, h1, h2]

theorem join_restores_snapshot_and_succeeds_witness :
    loadDoc exEnvErr.load = [] ∧
    (∃ room', aget "d2" (handleMessage exEnvErr initState 0
        (Msg.join (some "t") (some (JsId.str "d2")) none none none none none)).state.rooms =
      some room' ∧ room'.doc = loadDoc exEnvErr.load ∧ 0 ∈ room'.connections) :=
  ⟨by decide,
    (join_restores_snapshot_and_succeeds exEnvErr initState 0 "t" "d2" none none
      none none none ⟨"alice", "a@x"⟩ "owner" (by decide) (by decide) rfl
      (by decide) rfl).1⟩

/-! ### Claim C9 - presence broadcasts are deduplicated -/

/-- C9: in every `presence_update` broadcast the user list is
`presenceUsers` of the room's presence values (last conjunct, covering
every emit site, all of which go through `broadcastPresence`), and for
every presence list the deduplicated view has pairwise-distinct `userId`s;
each included entry is one of the room's entries and dominates every
entry of the same user by `lastHeartbeat`; and every user present in the
room is represented. -/
theorem presence_update_users_deduped (ps : List Presence) :
    (presenceUsers ps).Pairwise (fun a b => a.userId ≠ b.userId) ∧
    (∀ u, u ∈ presenceUsers ps → u ∈ ps ∧
      ∀ p, p ∈ ps → p.userId = u.userId → p.lastHeartbeat ≤ u.lastHeartbeat) ∧
    (∀ p, p ∈ ps → ∃ u, u ∈ presenceUsers ps ∧ u.userId = p.userId) ∧
    (∀ env docId room c f, (c, f) ∈ broadcastPresence env docId room →
      f = Frame.presenceUpdate docId (presenceUsers (room.presence.map Prod.snd))) := by
  obtain ⟨hnd, hmem, hrep⟩ := dacc_presenceUsers ps
  refine ⟨?_, ?_, ?_, ?_⟩
  · exact pairwise_userId_of_keyed hnd (fun e he => (hmem e he).1)
  · intro u hu
    obtain ⟨e, he, heq⟩ := List.mem_map.mp hu
    obtain ⟨h1, h2, h3⟩ := hmem e he
    subst heq
    exact ⟨h2, fun p hp hpu => h3 p hp (by rw [hpu, h1])⟩
  · intro p hp
    obtain ⟨q, hq⟩ := hrep p hp
    have hqmem := mem_of_aget_eq_some hq
    refine ⟨q, List.mem_map.mpr ⟨(p.userId, q), hqmem, rfl⟩, ?_⟩
    exact (hmem (p.userId, q) hqmem).1
  · intro env docId room c f hm
    unfold broadcastPresence broadcast at hm
    obtain ⟨c', _, heq⟩ := List.mem_map.mp hm
    injection heq with heq1 heq2
    exact heq2.symm

theorem presence_update_users_deduped_witness :
    exPb ∈ presenceUsers [exPa, exPb] ∧ exPb ∈ [exPa, exPb] ∧
    exPa.lastHeartbeat ≤ exPb.lastHeartbeat :=
  ⟨by decide,
    ((presence_update_users_deduped [exPa, exPb]).2.1 exPb (by decide)).1,
    ((presence_update_users_deduped [exPa, exPb]).2.1 exPb (by decide)).2 exPa
      (by decide) (by decide)⟩
